import Mathlib

/-!
Shallow embedding of `dbcdiff.py` (crea7or/dbc-diff), the DBC diff /
compare tool.  The core under verification is the diff engine:
`compare_dictionaries`, `converter`, `build_change`, `build_action`,
`compare_properties`, `compare_messages`, `message_signals`,
`compare_dbc` and `get_report`.

Modelling conventions:
  * Python values flowing through the dynamically typed `converter` /
    `compare_properties` code are embedded as the inductive `PyVal`;
    `None` is `PyVal.none`.
  * Python dicts are embedded as association lists in insertion order;
    `alookup` is dict indexing, `pyDict` rebuilds a dict from a
    key/value stream with Python's overwrite-on-duplicate-key
    semantics, and `dict_keys` is `dict.keys()`.
  * The external parsing library (cantools) is an external collaborator:
    a parsed file is a `Dbc` (list of parsed messages plus an optional
    version string), and entity attributes carry the types the library
    guarantees for them (e.g. `frame_id : Option Int`).  File paths are
    identified with their parsed contents, so the loader takes
    `Option Dbc` where the source takes an optional path.
  * The only fallible core function is `build_action` (its unknown-action
    branch calls `logger.critical`, which raises); it and everything
    calling it return `Except String _`, mirroring Python exception
    propagation.
-/

/-- Embedded Python dict key as it appears in a `choices` mapping:
either an integer key, or a decimal-string key (`CKey.kstr i` stands for
the string rendering of `i`, the forms `int(...)` accepts). -/
inductive CKey where
  | kint (i : Int)
  | kstr (i : Int)
deriving DecidableEq, Repr

/-- Value of Python `int()` applied to a `choices` dict key. -/
def CKey.toInt : CKey → Int
  | .kint i => i
  | .kstr i => i

/-- Embedded Python value as handled by `converter` and
`compare_properties`.  `dict` is a raw choices mapping in insertion
order; `ndict` is a normalized (integer-keyed, sorted) mapping as
produced by the `dict` branch of `converter`. -/
inductive PyVal where
  | none
  | int (i : Int)
  | num (q : Rat)
  | str (s : String)
  | bool (b : Bool)
  | list (l : List String)
  | dict (l : List (CKey × String))
  | ndict (l : List (Int × String))
deriving DecidableEq, Repr

/-- Keys of an association-list dict, in insertion order (`dict.keys()`). -/
def dict_keys (l : List (α × β)) : List α :=
  l.map Prod.fst

/-- Python dict indexing `d[k]` (first binding wins; in dicts built with
`pyDict` keys are unique, so this matches Python exactly). -/
def alookup [DecidableEq α] : List (α × β) → α → Option β
  | [], _ => Option.none
  | (k, v) :: rest, a => if a = k then some v else alookup rest a

/-- Python `d[k] = v` on an association-list dict: overwrite in place if
the key exists, append otherwise. -/
def pyInsert [DecidableEq α] (acc : List (α × β)) (kv : α × β) : List (α × β) :=
  if kv.1 ∈ dict_keys acc then
    acc.map (fun p => if p.1 = kv.1 then (p.1, kv.2) else p)
  else
    acc ++ [kv]

/-- Fold a key/value stream into a dict, later bindings overwriting. -/
def pyDictAux [DecidableEq α] (acc : List (α × β)) : List (α × β) → List (α × β)
  | [] => acc
  | kv :: rest => pyDictAux (pyInsert acc kv) rest

/-- Build a Python dict from a key/value stream (insertion order with
overwrite-on-duplicate, exactly the `d[k] = v` loop semantics). -/
def pyDict [DecidableEq α] (l : List (α × β)) : List (α × β) :=
  pyDictAux [] l

/-- `NodupKeys l`: the keys of the association list are distinct (true
of every Python dict). -/
def NodupKeys (l : List (α × β)) : Prop :=
  (dict_keys l).Nodup

/-- Python `hex(i)`: lowercase `0x`-prefixed rendering, `-0x...` for
negative integers. -/
def pyHex (i : Int) : String :=
  if i < 0 then "-0x" ++ String.mk (Nat.toDigits 16 i.natAbs)
  else "0x" ++ String.mk (Nat.toDigits 16 i.toNat)

/-- Python `str(value)` restricted to the embedded values.  Only the
`str`-kind schema attribute (`initial`, numeric per the loader contract)
reaches it in the program; the remaining branches are a deterministic
injective rendering so that equality of renderings tracks equality of
values, which is all `compare_properties` observes. -/
def pyStr : PyVal → String
  | .none => "None"
  | .int i => toString i
  | .num q => toString q
  | .str s => s
  | .bool b => cond b "True" "False"
  | .list l => String.intercalate "," l
  | .dict _ => "dict"
  | .ndict _ => "ndict"

/-- Lexicographic (code-point) comparison of character lists, the order
Python `sorted` uses on `str` values.  (The library order on `String`
is defined by well-founded recursion and does not evaluate inside the
kernel, so the model carries its own structural definition; `strLe_iff`
below proves it is the standard lexicographic order.) -/
def charsLe : List Char → List Char → Bool
  | [], _ => true
  | _ :: _, [] => false
  | a :: as, b :: bs =>
    if a < b then true else if b < a then false else charsLe as bs

/-- Python `a <= b` on strings: lexicographic by code point. -/
def strLe (a b : String) : Prop :=
  charsLe a.data b.data = true

instance : DecidableRel strLe := fun a b => by
  unfold strLe; infer_instance

/-- Python `sorted` order on the items of an integer-keyed dict: tuple
comparison, key first, then label.  (The label tie-break is never
exercised on dict items, whose keys are unique, but it is what `sorted`
does.) -/
def pairLe (a b : Int × String) : Prop :=
  a.1 < b.1 ∨ (a.1 = b.1 ∧ strLe a.2 b.2)

instance : DecidableRel pairLe := fun a b => by
  unfold pairLe; infer_instance

/-- The `dict` branch of `converter`: rebuild the mapping with `int(key)`
and `str(label)` (labels are already strings in the embedding), then
`dict(sorted(result.items()))`. -/
def pyDictNorm (l : List (CKey × String)) : List (Int × String) :=
  (pyDict (l.map (fun q => (q.1.toInt, q.2)))).insertionSort pairLe

/-- Source `converter(value, from_type)`.  A `None` value short-circuits;
otherwise dispatch on the normalization kind.  The wildcard fallbacks in
the typed branches are unreachable under the loader's typing contract
(`hex` is only paired with integer attributes, `dict` only with the
choices mapping, `list` only with string lists); Python would raise a
`TypeError` there. -/
def converter (value : PyVal) (from_type : String) : PyVal :=
  match value with
  | .none => .none
  | v =>
    if from_type = "hex" then
      match v with
      | .int i => .str (pyHex i)
      | w => w
    else if from_type = "str" then
      .str (pyStr v)
    else if from_type = "dict" then
      match v with
      | .dict l => .ndict (pyDictNorm l)
      | w => w
    else if from_type = "list" then
      match v with
      | .list l => .str (String.intercalate "," l)
      | w => w
    else v

/-- Source `compare_dictionaries(old, new)`: set reconciliation of the
key sets, each result `sorted(...)` (Python `set` plus `sorted` gives a
duplicate-free lexicographically sorted list). -/
def compare_dictionaries (old : List (String × β)) (new : List (String × γ)) :
    List String × List String × List String :=
  let old_set := (dict_keys old).dedup
  let new_set := (dict_keys new).dedup
  let same := old_set.filter (fun k => k ∈ new_set)
  let deleted := old_set.filter (fun k => k ∉ new_set)
  let added := new_set.filter (fun k => k ∉ old_set)
  (added.insertionSort strLe, same.insertionSort strLe, deleted.insertionSort strLe)

/-- Message attribute schema (`message_properties` in the source), in
source order. -/
def message_properties : List (String × String) :=
  [("frame_id", "hex"),
   ("is_extended_frame", "basic"),
   ("is_fd", "basic"),
   ("length", "basic"),
   ("send_type", "basic"),
   ("cycle_time", "basic"),
   ("senders", "list"),
   ("receivers", "list")]

/-- Signal attribute schema (`signal_properties` in the source), in
source order. -/
def signal_properties : List (String × String) :=
  [("minimum", "basic"),
   ("maximum", "basic"),
   ("start", "basic"),
   ("length", "basic"),
   ("byte_order", "basic"),
   ("is_signed", "basic"),
   ("initial", "str"),
   ("invalid", "basic"),
   ("unit", "basic"),
   ("scale", "basic"),
   ("offset", "basic"),
   ("is_float", "basic"),
   ("choices", "dict"),
   ("spn", "basic")]

/-- Parsed signal entity as delivered by the external loader (cantools),
with the attribute types the library guarantees (every attribute may be
`None`). -/
structure Signal where
  name : String
  minimum : Option Rat := Option.none
  maximum : Option Rat := Option.none
  start : Option Int := Option.none
  length : Option Int := Option.none
  byte_order : Option String := Option.none
  is_signed : Option Bool := Option.none
  initial : Option Rat := Option.none
  invalid : Option Rat := Option.none
  unit : Option String := Option.none
  scale : Option Rat := Option.none
  offset : Option Rat := Option.none
  is_float : Option Bool := Option.none
  choices : Option (List (CKey × String)) := Option.none
  spn : Option Int := Option.none
deriving DecidableEq, Repr

/-- Parsed message entity as delivered by the external loader: the
schema attributes plus the parsed signal list. -/
structure Message where
  name : String
  frame_id : Option Int := Option.none
  is_extended_frame : Option Bool := Option.none
  is_fd : Option Bool := Option.none
  length : Option Int := Option.none
  send_type : Option String := Option.none
  cycle_time : Option Int := Option.none
  senders : Option (List String) := Option.none
  receivers : Option (List String) := Option.none
  signals : List Signal := []
deriving DecidableEq, Repr

/-- Message together with the `msg_signals` dict that `dbc_loader`
attaches to it (`setattr(dbc_message, 'msg_signals', signals)`). -/
structure MsgEnt where
  message : Message
  msg_signals : List (String × Signal)
deriving DecidableEq, Repr

/-- Parsed catalog file as delivered by the external loader:
`dbc.messages` and `dbc.version`. -/
structure Dbc where
  messages : List Message
  version : Option String := Option.none
deriving DecidableEq, Repr

/-- Injections of the typed attributes into the dynamic value space. -/
def pyOfInt : Option Int → PyVal
  | Option.none => .none
  | some i => .int i

/-- Injection of an optional numeric attribute. -/
def pyOfNum : Option Rat → PyVal
  | Option.none => .none
  | some q => .num q

/-- Injection of an optional string attribute. -/
def pyOfStr : Option String → PyVal
  | Option.none => .none
  | some s => .str s

/-- Injection of an optional boolean attribute. -/
def pyOfBool : Option Bool → PyVal
  | Option.none => .none
  | some b => .bool b

/-- Injection of an optional string-list attribute. -/
def pyOfList : Option (List String) → PyVal
  | Option.none => .none
  | some l => .list l

/-- Injection of an optional choices-mapping attribute. -/
def pyOfDict : Option (List (CKey × String)) → PyVal
  | Option.none => .none
  | some l => .dict l

/-- Python `getattr(message, name)` for the names in
`message_properties` (the schema is closed, so no other name is ever
asked for). -/
def getattrMsg (m : Message) : String → PyVal
  | "frame_id" => pyOfInt m.frame_id
  | "is_extended_frame" => pyOfBool m.is_extended_frame
  | "is_fd" => pyOfBool m.is_fd
  | "length" => pyOfInt m.length
  | "send_type" => pyOfStr m.send_type
  | "cycle_time" => pyOfInt m.cycle_time
  | "senders" => pyOfList m.senders
  | "receivers" => pyOfList m.receivers
  | _ => .none

/-- Python `getattr(signal, name)` for the names in `signal_properties`. -/
def getattrSig (s : Signal) : String → PyVal
  | "minimum" => pyOfNum s.minimum
  | "maximum" => pyOfNum s.maximum
  | "start" => pyOfInt s.start
  | "length" => pyOfInt s.length
  | "byte_order" => pyOfStr s.byte_order
  | "is_signed" => pyOfBool s.is_signed
  | "initial" => pyOfNum s.initial
  | "invalid" => pyOfNum s.invalid
  | "unit" => pyOfStr s.unit
  | "scale" => pyOfNum s.scale
  | "offset" => pyOfNum s.offset
  | "is_float" => pyOfBool s.is_float
  | "choices" => pyOfDict s.choices
  | "spn" => pyOfInt s.spn
  | _ => .none

/-- Version defaulting inside `dbc_loader`:
`"unknown" if dbc.version is None or len(dbc.version) == 0 else dbc.version`. -/
def version_of (dbc : Dbc) : String :=
  match dbc.version with
  | Option.none => "unknown"
  | some v => if v.length = 0 then "unknown" else v

/-- Source `dbc_loader(dbc_file)`: when a file is supplied, build the
message dict (keyed by message name) attaching to each message its
signal dict (keyed by signal name), and default the version; when the
path is `None`, return an empty dict and a `None` version.  The file
path is identified with its parsed contents (the parse itself is the
external collaborator). -/
def dbc_loader (dbc_file : Option Dbc) : List (String × MsgEnt) × Option String :=
  match dbc_file with
  | Option.none => ([], Option.none)
  | some dbc =>
    let messages := pyDict (dbc.messages.map (fun m =>
      (m.name, MsgEnt.mk m (pyDict (m.signals.map (fun s => (s.name, s)))))))
    (messages, some (version_of dbc))

/-- One property delta `{'name': ..., 'old': ..., 'new': ...}`. -/
structure PropDelta where
  name : String
  old : PyVal
  new : PyVal
deriving DecidableEq, Repr

mutual
/-- Change record as built by `build_change`: the `action` tag, the
payload stored under the key named like the action, and the optional
`signals` key (present exactly when a non-`None` `signals` argument was
passed). -/
inductive Change where
  | mk (action : String) (payload : Payload) (signals : Option (List (String × Change)))

/-- Payload stored under the action-named key: either a property-delta
list (message/signal level) or a nested per-name change map (file
level). -/
inductive Payload where
  | deltas (l : List PropDelta)
  | nested (l : List (String × Change))
end

/-- Action tag of a change record. -/
def Change.action : Change → String
  | .mk a _ _ => a

/-- Payload of a change record. -/
def Change.payload : Change → Payload
  | .mk _ p _ => p

/-- Optional nested signal map of a change record. -/
def Change.signals : Change → Option (List (String × Change))
  | .mk _ _ s => s

/-- Source `build_change(action, change, signals=None)`. -/
def build_change (action : String) (change : Payload)
    (signals : Option (List (String × Change)) := Option.none) : Change :=
  Change.mk action change signals

/-- Property loop of `build_action` (`for item_property, from_type in
properties.items()`), carrying the `properties_list` accumulator: append
the full-inventory delta for an `added`/`deleted` action, or raise (via
`logger.critical`, which throws) on any other action name. -/
def build_action_props_loop (action : String) (getv : String → PyVal)
    (acc : List PropDelta) : List (String × String) → Except String (List PropDelta)
  | [] => .ok acc
  | q :: rest =>
    let value := converter (getv q.1) q.2
    if action = "deleted" then
      build_action_props_loop action getv
        (if value ≠ PyVal.none then acc ++ [PropDelta.mk q.1 value PyVal.none] else acc) rest
    else if action = "added" then
      build_action_props_loop action getv
        (if value ≠ PyVal.none then acc ++ [PropDelta.mk q.1 PyVal.none value] else acc) rest
    else
      Except.error ("unknown action: " ++ action)

/-- Property loop of `build_action` started on the empty
`properties_list`. -/
def build_action_props (action : String) (getv : String → PyVal)
    (properties : List (String × String)) : Except String (List PropDelta) :=
  build_action_props_loop action getv [] properties

/-- Source `build_action(action, item, properties, signals=None)`:
full-inventory record for a whole added/deleted entity. -/
def build_action (action : String) (getv : String → PyVal)
    (properties : List (String × String))
    (signals : Option (List (String × Change)) := Option.none) :
    Except String Change := do
  let properties_list ← build_action_props action getv properties
  pure (build_change action (.deltas properties_list) signals)

/-- Source `compare_properties(old_object, new_object, properties)`:
one delta per schema attribute whose normalized values differ. -/
def compare_properties (getv_old getv_new : String → PyVal)
    (properties : List (String × String)) : List PropDelta :=
  properties.filterMap (fun q =>
    let old_property := converter (getv_old q.1) q.2
    let new_property := converter (getv_new q.1) q.2
    if old_property ≠ new_property then
      some (PropDelta.mk q.1 old_property new_property)
    else
      Option.none)

/-- Exception-propagating map over a list (a Python `for` loop whose
body may raise), keeping the iteration order. -/
def exMapM (f : α → Except ε β) : List α → Except ε (List β)
  | [] => Except.ok []
  | a :: as => do
    let b ← f a
    let bs ← exMapM f as
    pure (b :: bs)

/-- Exception-propagating map-and-filter over a list: loop bodies that
conditionally add an entry, and may raise. -/
def exFilterMapM (f : α → Except ε (Option β)) : List α → Except ε (List β)
  | [] => Except.ok []
  | a :: as => do
    let ob ← f a
    let bs ← exFilterMapM f as
    pure (match ob with
          | some b => b :: bs
          | Option.none => bs)

/-- Source `compare_messages(old_message, new_message)`: the message
property deltas, and the per-signal change dict in insertion order —
changed common signals first, then deleted, then added (the three
per-name loops of the source).  Indexing a dict with a key from the
reconciled sets cannot miss, so the unreachable `none` lookup branches
contribute nothing. -/
def compare_messages (old_message new_message : MsgEnt) :
    Except String (List PropDelta × List (String × Change)) := do
  let message_changes_list :=
    compare_properties (getattrMsg old_message.message) (getattrMsg new_message.message)
      message_properties
  let reconciled := compare_dictionaries old_message.msg_signals new_message.msg_signals
  let added := reconciled.1
  let same := reconciled.2.1
  let deleted := reconciled.2.2
  let same_changes := same.filterMap (fun name =>
    match alookup old_message.msg_signals name, alookup new_message.msg_signals name with
    | some o, some n =>
      let changed_list := compare_properties (getattrSig o) (getattrSig n) signal_properties
      if changed_list.length > 0 then
        some (name, build_change "changed" (.deltas changed_list))
      else
        Option.none
    | _, _ => Option.none)
  let deleted_changes ← exFilterMapM (fun name =>
    match alookup old_message.msg_signals name with
    | some s => do
      let c ← build_action "deleted" (getattrSig s) signal_properties
      pure (some (name, c))
    | Option.none => pure Option.none) deleted
  let added_changes ← exFilterMapM (fun name =>
    match alookup new_message.msg_signals name with
    | some s => do
      let c ← build_action "added" (getattrSig s) signal_properties
      pure (some (name, c))
    | Option.none => pure Option.none) added
  pure (message_changes_list, same_changes ++ deleted_changes ++ added_changes)

/-- Source `message_signals(action, signals)`: mark every signal of a
wholly added/deleted message with the same full-inventory action. -/
def message_signals (action : String) (signals : List (String × Signal)) :
    Except String (List (String × Change)) :=
  exMapM (fun q => do
    let c ← build_action action (getattrSig q.2) signal_properties
    pure (q.1, c)) signals

/-- Version metadata dict of `compare_dbc`: `old_version`/`new_version`
are present (`some`) exactly when the key was written, and
`same_version` is always present. -/
structure Versions where
  old_version : Option String
  new_version : Option String
  same_version : Bool
deriving DecidableEq, Repr

/-- Source `compare_dbc(old_dbc_file_path, new_dbc_file_path)`: load
both sides, reconcile message names, emit changed common messages
(only when some delta exists), then deleted, then added messages with
full inventories, and build the version metadata. -/
def compare_dbc (old_dbc_file_path new_dbc_file_path : Option Dbc) :
    Except String (List (String × Change) × Versions) := do
  let old_dbc := (dbc_loader old_dbc_file_path).1
  let old_version := (dbc_loader old_dbc_file_path).2
  let new_dbc := (dbc_loader new_dbc_file_path).1
  let new_version := (dbc_loader new_dbc_file_path).2
  let reconciled := compare_dictionaries old_dbc new_dbc
  let added := reconciled.1
  let same := reconciled.2.1
  let deleted := reconciled.2.2
  let same_report ← exFilterMapM (fun name =>
    match alookup old_dbc name, alookup new_dbc name with
    | some o, some n => do
      let pr ← compare_messages o n
      pure (if pr.1.length > 0 ∨ pr.2.length > 0 then
              some (name, build_change "changed" (.deltas pr.1) (some pr.2))
            else
              Option.none)
    | _, _ => pure Option.none) same
  let deleted_report ← exFilterMapM (fun name =>
    match alookup old_dbc name with
    | some m => do
      let sigs ← message_signals "deleted" m.msg_signals
      let c ← build_action "deleted" (getattrMsg m.message) message_properties (some sigs)
      pure (some (name, c))
    | Option.none => pure Option.none) deleted
  let added_report ← exFilterMapM (fun name =>
    match alookup new_dbc name with
    | some m => do
      let sigs ← message_signals "added" m.msg_signals
      let c ← build_action "added" (getattrMsg m.message) message_properties (some sigs)
      pure (some (name, c))
    | Option.none => pure Option.none) added
  let versions := Versions.mk
    (if old_dbc_file_path.isSome then old_version else Option.none)
    (if new_dbc_file_path.isSome then new_version else Option.none)
    (old_version == new_version)
  pure (same_report ++ deleted_report ++ added_report, versions)

/-- One entry of the top-level report: `build_change(...) | versions`
in the source is a union of dicts with disjoint keys, modelled as a
record holding both parts. -/
structure FileEntry where
  change : Change
  versions : Versions

/-- Source `get_report(old_files, new_files, unchanged)`: reconcile the
file-name sets; added files are diffed with the old side absent and
wrapped `added`; deleted files with the new side absent, wrapped
`deleted`; common files are wrapped `changed` when the catalog diff is
non-empty or the versions differ, `unchanged` when the caller opted in,
and omitted otherwise.  File collections map file names to parsed
contents (paths stand for what the loader parses from them). -/
def get_report (old_files new_files : List (String × Dbc)) (unchanged : Bool) :
    Except String (List (String × FileEntry)) := do
  let reconciled := compare_dictionaries old_files new_files
  let added := reconciled.1
  let same := reconciled.2.1
  let deleted := reconciled.2.2
  let added_report ← exFilterMapM (fun file_added =>
    match alookup new_files file_added with
    | some d => do
      let pr ← compare_dbc Option.none (some d)
      pure (some (file_added, FileEntry.mk (build_change "added" (.nested pr.1)) pr.2))
    | Option.none => pure Option.none) added
  let deleted_report ← exFilterMapM (fun file_deleted =>
    match alookup old_files file_deleted with
    | some d => do
      let pr ← compare_dbc (some d) Option.none
      pure (some (file_deleted, FileEntry.mk (build_change "deleted" (.nested pr.1)) pr.2))
    | Option.none => pure Option.none) deleted
  let same_report ← exFilterMapM (fun file_same =>
    match alookup old_files file_same, alookup new_files file_same with
    | some dold, some dnew => do
      let pr ← compare_dbc (some dold) (some dnew)
      pure (if pr.1.length > 0 ∨ pr.2.same_version = false then
              some (file_same, FileEntry.mk (build_change "changed" (.nested pr.1)) pr.2)
            else if unchanged then
              some (file_same, FileEntry.mk (build_change "unchanged" (.nested pr.1)) pr.2)
            else
              Option.none)
    | _, _ => pure Option.none) same
  pure (added_report ++ deleted_report ++ same_report)

/-- Full property inventory of a deleted entity: one delta per schema
attribute whose converted value is non-`None`, new side `None`. -/
def inventory_old (getv : String → PyVal) (properties : List (String × String)) :
    List PropDelta :=
  properties.filterMap (fun q =>
    let value := converter (getv q.1) q.2
    if value ≠ PyVal.none then some (PropDelta.mk q.1 value PyVal.none) else Option.none)

/-- Full property inventory of an added entity: one delta per schema
attribute whose converted value is non-`None`, old side `None`. -/
def inventory_new (getv : String → PyVal) (properties : List (String × String)) :
    List PropDelta :=
  properties.filterMap (fun q =>
    let value := converter (getv q.1) q.2
    if value ≠ PyVal.none then some (PropDelta.mk q.1 PyVal.none value) else Option.none)

/-- Change record of a deleted signal: full inventory, no nested map. -/
def removed_signal_change (s : Signal) : Change :=
  build_change "deleted" (.deltas (inventory_old (getattrSig s) signal_properties))

/-- Change record of an added signal: full inventory, no nested map. -/
def added_signal_change (s : Signal) : Change :=
  build_change "added" (.deltas (inventory_new (getattrSig s) signal_properties))

/-- Change record of a deleted message: full property inventory plus the
nested map marking every signal deleted. -/
def removed_message_change (m : MsgEnt) : Change :=
  build_change "deleted" (.deltas (inventory_old (getattrMsg m.message) message_properties))
    (some (m.msg_signals.map (fun q => (q.1, removed_signal_change q.2))))

/-- Change record of an added message: full property inventory plus the
nested map marking every signal added. -/
def added_message_change (m : MsgEnt) : Change :=
  build_change "added" (.deltas (inventory_new (getattrMsg m.message) message_properties))
    (some (m.msg_signals.map (fun q => (q.1, added_signal_change q.2))))

/-- Exception-free value of `compare_messages` (which never raises,
since its builder calls use the literal actions `deleted`/`added`). -/
def compare_messages_run (old_message new_message : MsgEnt) :
    List PropDelta × List (String × Change) :=
  let message_changes_list :=
    compare_properties (getattrMsg old_message.message) (getattrMsg new_message.message)
      message_properties
  let reconciled := compare_dictionaries old_message.msg_signals new_message.msg_signals
  let same_changes := reconciled.2.1.filterMap (fun name =>
    match alookup old_message.msg_signals name, alookup new_message.msg_signals name with
    | some o, some n =>
      let changed_list := compare_properties (getattrSig o) (getattrSig n) signal_properties
      if changed_list.length > 0 then
        some (name, build_change "changed" (.deltas changed_list))
      else
        Option.none
    | _, _ => Option.none)
  let deleted_changes := reconciled.2.2.filterMap (fun name =>
    (alookup old_message.msg_signals name).map (fun s => (name, removed_signal_change s)))
  let added_changes := reconciled.1.filterMap (fun name =>
    (alookup new_message.msg_signals name).map (fun s => (name, added_signal_change s)))
  (message_changes_list, same_changes ++ deleted_changes ++ added_changes)

/-- Exception-free value of `compare_dbc` (which never raises: all its
builder calls use the literal actions `deleted`/`added`). -/
def compare_dbc_run (old_dbc_file_path new_dbc_file_path : Option Dbc) :
    List (String × Change) × Versions :=
  let old_dbc := (dbc_loader old_dbc_file_path).1
  let new_dbc := (dbc_loader new_dbc_file_path).1
  let reconciled := compare_dictionaries old_dbc new_dbc
  let same_report := reconciled.2.1.filterMap (fun name =>
    match alookup old_dbc name, alookup new_dbc name with
    | some o, some n =>
      let pr := compare_messages_run o n
      if pr.1.length > 0 ∨ pr.2.length > 0 then
        some (name, build_change "changed" (.deltas pr.1) (some pr.2))
      else
        Option.none
    | _, _ => Option.none)
  let deleted_report := reconciled.2.2.filterMap (fun name =>
    (alookup old_dbc name).map (fun m => (name, removed_message_change m)))
  let added_report := reconciled.1.filterMap (fun name =>
    (alookup new_dbc name).map (fun m => (name, added_message_change m)))
  (same_report ++ deleted_report ++ added_report,
   Versions.mk
     (if old_dbc_file_path.isSome then (dbc_loader old_dbc_file_path).2 else Option.none)
     (if new_dbc_file_path.isSome then (dbc_loader new_dbc_file_path).2 else Option.none)
     ((dbc_loader old_dbc_file_path).2 == (dbc_loader new_dbc_file_path).2))

/-- Top-level entry for a file only present on the new side. -/
def added_file_entry (d : Dbc) : FileEntry :=
  FileEntry.mk (build_change "added" (.nested (compare_dbc_run Option.none (some d)).1))
    (compare_dbc_run Option.none (some d)).2

/-- Top-level entry for a file only present on the old side. -/
def removed_file_entry (d : Dbc) : FileEntry :=
  FileEntry.mk (build_change "deleted" (.nested (compare_dbc_run (some d) Option.none).1))
    (compare_dbc_run (some d) Option.none).2

/-- Top-level entry for a file present on both sides, if any. -/
def common_file_entry (unchanged : Bool) (dold dnew : Dbc) : Option FileEntry :=
  let pr := compare_dbc_run (some dold) (some dnew)
  if pr.1.length > 0 ∨ pr.2.same_version = false then
    some (FileEntry.mk (build_change "changed" (.nested pr.1)) pr.2)
  else if unchanged then
    some (FileEntry.mk (build_change "unchanged" (.nested pr.1)) pr.2)
  else
    Option.none

/-- Exception-free value of `get_report` (which never raises). -/
def get_report_run (old_files new_files : List (String × Dbc)) (unchanged : Bool) :
    List (String × FileEntry) :=
  let reconciled := compare_dictionaries old_files new_files
  let added_report := reconciled.1.filterMap (fun f =>
    (alookup new_files f).map (fun d => (f, added_file_entry d)))
  let deleted_report := reconciled.2.2.filterMap (fun f =>
    (alookup old_files f).map (fun d => (f, removed_file_entry d)))
  let same_report := reconciled.2.1.filterMap (fun f =>
    match alookup old_files f, alookup new_files f with
    | some dold, some dnew => (common_file_entry unchanged dold dnew).map (fun e => (f, e))
    | _, _ => Option.none)
  added_report ++ deleted_report ++ same_report

/-- Integer-keyed view of a raw choices mapping (the result of applying
`int` to each key). -/
def choiceInts (l : List (CKey × String)) : List (Int × String) :=
  l.map (fun q => (q.1.toInt, q.2))

/-- Action tags that actually occur in records the program builds. -/
def okActions : List String :=
  ["added", "deleted", "changed", "unchanged"]

/-- Recursive well-formedness of a change record: its action tag is one
of the four the program uses, and every nested record (in a `nested`
payload or a `signals` map) is well-formed too. -/
inductive ChangeOk : Change → Prop where
  | intro : ∀ (a : String) (p : Payload) (s : Option (List (String × Change))),
      a ∈ okActions →
      (∀ l, p = Payload.nested l → ∀ q ∈ l, ChangeOk q.2) →
      (∀ l, s = some l → ∀ q ∈ l, ChangeOk q.2) →
      ChangeOk (Change.mk a p s)

/-- Full-inventory delta list exactly as the specification words it:
one `{name, old, new}` delta per schema attribute whose raw value is
non-null on the old (source) side, the new side null, in schema order. -/
def spec_inventory_old (getv : String → PyVal) (props : List (String × String)) :
    List PropDelta :=
  props.filterMap (fun q =>
    if getv q.1 = PyVal.none then Option.none
    else some (PropDelta.mk q.1 (converter (getv q.1) q.2) PyVal.none))

/-- Mirror of `spec_inventory_old` for added entities: old side null. -/
def spec_inventory_new (getv : String → PyVal) (props : List (String × String)) :
    List PropDelta :=
  props.filterMap (fun q =>
    if getv q.1 = PyVal.none then Option.none
    else some (PropDelta.mk q.1 PyVal.none (converter (getv q.1) q.2)))

/-- The record the specification describes for a deleted signal. -/
def spec_removed_signal (s : Signal) : Change :=
  build_change "deleted" (.deltas (spec_inventory_old (getattrSig s) signal_properties))

/-- The record the specification describes for an added signal. -/
def spec_added_signal (s : Signal) : Change :=
  build_change "added" (.deltas (spec_inventory_new (getattrSig s) signal_properties))

/-- The record the specification describes for a deleted message: full
property inventory plus every signal marked deleted in the same style. -/
def spec_removed_message (m : MsgEnt) : Change :=
  build_change "deleted" (.deltas (spec_inventory_old (getattrMsg m.message) message_properties))
    (some (m.msg_signals.map (fun q => (q.1, spec_removed_signal q.2))))

/-- The record the specification describes for an added message. -/
def spec_added_message (m : MsgEnt) : Change :=
  build_change "added" (.deltas (spec_inventory_new (getattrMsg m.message) message_properties))
    (some (m.msg_signals.map (fun q => (q.1, spec_added_signal q.2))))

/-- Concrete signal used by the concrete-input theorems. -/
def wSig1 : Signal :=
  { name := "S1", start := some 0, length := some 8, is_signed := some false,
    choices := some [(CKey.kint 0, "OFF"), (CKey.kint 1, "ON")] }

/-- Concrete message used by the concrete-input theorems. -/
def wMsg1 : Message :=
  { name := "M1", frame_id := some 100, length := some 8,
    senders := some ["A", "B"], signals := [wSig1] }

/-- Concrete catalog used by the concrete-input theorems. -/
def wDbc1 : Dbc := { messages := [wMsg1], version := some "v1" }

/-- Concrete catalog whose file carries no version string, so the
loader defaults its version to `"unknown"`. -/
def wDbcNoVer : Dbc := { messages := [], version := Option.none }

/-- Concrete signal with the choices `{0: OFF, 1: ON}`. -/
def wSigOff : Signal :=
  { name := "S", choices := some [(CKey.kint 0, "OFF"), (CKey.kint 1, "ON")] }

/-- Concrete signal with the same choices content in reversed insertion
order, the key `0` given as a numeric string. -/
def wSigOn2 : Signal :=
  { name := "S", choices := some [(CKey.kint 1, "ON"), (CKey.kstr 0, "OFF")] }

/-- Concrete signal whose choices differ from `wSigOff` in exactly one
label, built in reversed insertion order with a numeric-string key. -/
def wSigOnn : Signal :=
  { name := "S", choices := some [(CKey.kstr 1, "ONN"), (CKey.kint 0, "OFF")] }

/-!
## Theorems
-/

/-- Unfolding equation of `charsLe` on two cons cells. -/
theorem charsLe_cons (a b : Char) (as bs : List Char) :
    charsLe (a :: as) (b :: bs)
      = (if a < b then true else if b < a then false else charsLe as bs) := rfl

theorem charsLe_total (as bs : List Char) : charsLe as bs = true ∨ charsLe bs as = true := by
  induction as generalizing bs with
  | nil => exact Or.inl rfl
  | cons a as ih =>
    cases bs with
    | nil => exact Or.inr rfl
    | cons b bs =>
      rcases lt_trichotomy a b with h | h | h
      · left; simp [charsLe_cons, h]
      · subst h
        rcases ih bs with h2 | h2
        · left; simp [charsLe_cons, h2]
        · right; simp [charsLe_cons, h2]
      · right; simp [charsLe_cons, h]

theorem charsLe_trans (as bs cs : List Char)
    (h1 : charsLe as bs = true) (h2 : charsLe bs cs = true) : charsLe as cs = true := by
  induction as generalizing bs cs with
  | nil => rfl
  | cons a as ih =>
    cases bs with
    | nil => simp [charsLe] at h1
    | cons b bs =>
      cases cs with
      | nil => simp [charsLe] at h2
      | cons c cs =>
        rw [charsLe_cons] at h1 h2 ⊢
        by_cases hab : a < b
        · by_cases hbc : b < c
          · simp [hab.trans hbc]
          · by_cases hcb : c < b
            · simp [hbc, hcb] at h2
            · have hbceq : b = c := le_antisymm (not_lt.mp hcb) (not_lt.mp hbc)
              subst hbceq
              simp [hab]
        · by_cases hba : b < a
          · simp [hab, hba] at h1
          · have habeq : a = b := le_antisymm (not_lt.mp hba) (not_lt.mp hab)
            subst habeq
            simp only [hab, if_false, hba] at h1
            by_cases hac : a < c
            · simp [hac]
            · by_cases hca : c < a
              · simp [hac, hca] at h2
              · have haceq : a = c := le_antisymm (not_lt.mp hca) (not_lt.mp hac)
                subst haceq
                simp only [hac, if_false, hca] at h2 ⊢
                exact ih bs cs (by simpa using h1) (by simpa using h2)

theorem charsLe_antisymm (as bs : List Char)
    (h1 : charsLe as bs = true) (h2 : charsLe bs as = true) : as = bs := by
  induction as generalizing bs with
  | nil => cases bs with
    | nil => rfl
    | cons b bs => simp [charsLe] at h2
  | cons a as ih =>
    cases bs with
    | nil => simp [charsLe] at h1
    | cons b bs =>
      rw [charsLe_cons] at h1 h2
      by_cases hab : a < b
      · simp only [hab, if_true, if_false, not_lt_of_gt hab] at h2
        exact absurd h2 (by simp)
      · by_cases hba : b < a
        · simp only [hab, if_false, hba, if_true] at h1
          exact absurd h1 (by simp)
        · have heq : a = b := le_antisymm (not_lt.mp hba) (not_lt.mp hab)
          subst heq
          simp only [hab, if_false, hba] at h1 h2
          rw [ih bs (by simpa using h1) (by simpa using h2)]

instance : IsTotal String strLe where
  total a b := charsLe_total a.data b.data

instance : IsTrans String strLe where
  trans a b c h1 h2 := charsLe_trans a.data b.data c.data h1 h2

instance : IsAntisymm String strLe where
  antisymm a b h1 h2 := by
    have h := charsLe_antisymm a.data b.data h1 h2
    cases a; cases b; exact congrArg String.mk h

/-- The model order `strLe` is the standard lexicographic order on the
underlying character lists. -/
theorem strLe_iff (a b : String) :
    strLe a b ↔ (List.Lex (· < ·) a.data b.data ∨ a.data = b.data) := by
  unfold strLe
  generalize a.data = as
  generalize b.data = bs
  induction as generalizing bs with
  | nil =>
    cases bs with
    | nil => simp [charsLe]
    | cons b bs => simp [charsLe]; exact List.Lex.nil
  | cons a as ih =>
    cases bs with
    | nil =>
      simp only [charsLe]
      constructor
      · intro h; cases h
      · rintro (h | h) <;> cases h
    | cons b bs =>
      rw [charsLe_cons]
      split_ifs with hab hba
      · simp only [true_iff]
        exact Or.inl (List.Lex.rel hab)
      · simp only [false_iff]
        rintro (h | h)
        · cases h with
          | rel h => exact absurd (hba.trans h) (lt_irrefl _)
          | cons h => exact absurd hba (lt_irrefl _)
        · injection h with h1 h2
          exact absurd hba (h1 ▸ lt_irrefl _)
      · have hq : a = b := le_antisymm (not_lt.mp hba) (not_lt.mp hab)
        subst hq
        rw [ih bs]
        constructor
        · rintro (h | h)
          · exact Or.inl (List.Lex.cons h)
          · exact Or.inr (by rw [h])
        · rintro (h | h)
          · cases h with
            | rel h => exact absurd h (lt_irrefl _)
            | cons h => exact Or.inl h
          · injection h with h1 h2
            exact Or.inr h2

instance : IsTotal (Int × String) pairLe where
  total a b := by
    rcases lt_trichotomy a.1 b.1 with h | h | h
    · exact Or.inl (Or.inl h)
    · rcases total_of strLe a.2 b.2 with h2 | h2
      · exact Or.inl (Or.inr ⟨h, h2⟩)
      · exact Or.inr (Or.inr ⟨h.symm, h2⟩)
    · exact Or.inr (Or.inl h)

instance : IsTrans (Int × String) pairLe where
  trans a b c hab hbc := by
    rcases hab with h1 | ⟨h1, h1s⟩ <;> rcases hbc with h2 | ⟨h2, h2s⟩
    · exact Or.inl (h1.trans h2)
    · exact Or.inl (h2 ▸ h1)
    · exact Or.inl (h1 ▸ h2)
    · exact Or.inr ⟨h1.trans h2, trans_of strLe h1s h2s⟩

instance : IsAntisymm (Int × String) pairLe where
  antisymm a b hab hba := by
    rcases hab with h1 | ⟨h1, h1s⟩
    · rcases hba with h2 | ⟨h2, _⟩
      · exact absurd (h1.trans h2) (lt_irrefl _)
      · exact absurd h1 (h2 ▸ lt_irrefl _)
    · rcases hba with h2 | ⟨_, h2s⟩
      · exact absurd h2 (h1 ▸ lt_irrefl _)
      · exact Prod.ext h1 (antisymm_of strLe h1s h2s)

theorem alookup_eq_none_iff [DecidableEq α] (l : List (α × β)) (a : α) :
    alookup l a = Option.none ↔ a ∉ dict_keys l := by
  induction l with
  | nil => simp [alookup, dict_keys]
  | cons kv rest ih =>
    obtain ⟨k, v⟩ := kv
    by_cases h : a = k
    · subst h; simp [alookup, dict_keys]
    · simp only [alookup, if_neg h]
      rw [ih]
      simp [dict_keys, h]

theorem alookup_isSome_of_mem [DecidableEq α] (l : List (α × β)) (a : α)
    (h : a ∈ dict_keys l) : ∃ v, alookup l a = some v := by
  cases hv : alookup l a with
  | none => exact absurd ((alookup_eq_none_iff l a).mp hv) (by simp [h])
  | some v => exact ⟨v, rfl⟩

theorem alookup_mem_keys_of_some [DecidableEq α] (l : List (α × β)) (a : α) (v : β)
    (h : alookup l a = some v) : a ∈ dict_keys l := by
  by_contra hmem
  rw [(alookup_eq_none_iff l a).mpr hmem] at h
  cases h

theorem alookup_append [DecidableEq α] (l₁ l₂ : List (α × β)) (a : α) :
    alookup (l₁ ++ l₂) a =
      match alookup l₁ a with
      | some v => some v
      | Option.none => alookup l₂ a := by
  induction l₁ with
  | nil => simp [alookup]
  | cons kv rest ih =>
    obtain ⟨k, v⟩ := kv
    by_cases h : a = k <;> simp [alookup, h, ih]

/-- Looking up `f` in a report built by mapping names to entries keyed
by that same name. -/
theorem alookup_keyed_filterMap [DecidableEq α] (l : List α) (g : α → Option β)
    (h : α → β → γ) (f : α) :
    alookup (l.filterMap (fun n => (g n).map (fun x => (n, h n x)))) f
      = if f ∈ l then (g f).map (h f) else Option.none := by
  induction l with
  | nil => simp [alookup]
  | cons a rest ih =>
    by_cases hfa : f = a
    · subst hfa
      cases hg : g f with
      | none => simp [List.filterMap_cons, hg, ih]
      | some x => simp [List.filterMap_cons, hg, alookup]
    · cases hg : g a with
      | none => simp [List.filterMap_cons, hg, ih, hfa]
      | some x => simp [List.filterMap_cons, hg, alookup, hfa, ih]

/-- Entries of a report built by mapping names to entries keyed by that
same name. -/
theorem mem_keyed_filterMap [DecidableEq α] (l : List α) (g : α → Option β)
    (h : α → β → γ) (p : α × γ) :
    p ∈ l.filterMap (fun n => (g n).map (fun x => (n, h n x)))
      ↔ p.1 ∈ l ∧ ∃ x, g p.1 = some x ∧ p.2 = h p.1 x := by
  rw [List.mem_filterMap]
  constructor
  · rintro ⟨n, hn, hmap⟩
    cases hg : g n with
    | none => rw [hg] at hmap; cases hmap
    | some x =>
      rw [hg] at hmap
      injection hmap with hmap
      cases p
      injection hmap with h1 h2
      subst h1
      exact ⟨hn, x, hg, h2.symm⟩
  · rintro ⟨hmem, x, hg, hv⟩
    exact ⟨p.1, hmem, by cases p; simp_all⟩

theorem pyDictAux_of_nodupKeys [DecidableEq α] (l acc : List (α × β))
    (h : NodupKeys (acc ++ l)) : pyDictAux acc l = acc ++ l := by
  induction l generalizing acc with
  | nil => simp [pyDictAux]
  | cons kv rest ih =>
    have hnd := h
    simp only [NodupKeys, dict_keys, List.map_append, List.map_cons,
      List.nodup_append] at hnd
    have hku : kv.1 ∉ dict_keys acc := by
      intro hmem
      exact hnd.2.2 (by simpa [dict_keys] using hmem) (by simp)
    have hins : pyInsert acc kv = acc ++ [kv] := by
      simp [pyInsert, hku]
    rw [show pyDictAux acc (kv :: rest) = pyDictAux (pyInsert acc kv) rest from rfl, hins,
      ih (acc ++ [kv]) (by simpa [NodupKeys, dict_keys] using h)]
    simp

/-- A duplicate-free key/value stream passes through the dict builder
untouched. -/
theorem pyDict_of_nodupKeys [DecidableEq α] (l : List (α × β)) (h : NodupKeys l) :
    pyDict l = l := by
  simpa using pyDictAux_of_nodupKeys l [] (by simpa using h)

theorem mem_cd_added (old : List (String × β)) (new : List (String × γ)) (k : String) :
    k ∈ (compare_dictionaries old new).1 ↔ k ∈ dict_keys new ∧ k ∉ dict_keys old := by
  simp [compare_dictionaries, List.mem_insertionSort, List.mem_filter, List.mem_dedup,
    and_comm]

theorem mem_cd_same (old : List (String × β)) (new : List (String × γ)) (k : String) :
    k ∈ (compare_dictionaries old new).2.1 ↔ k ∈ dict_keys old ∧ k ∈ dict_keys new := by
  simp [compare_dictionaries, List.mem_insertionSort, List.mem_filter, List.mem_dedup,
    and_comm]

theorem mem_cd_deleted (old : List (String × β)) (new : List (String × γ)) (k : String) :
    k ∈ (compare_dictionaries old new).2.2 ↔ k ∈ dict_keys old ∧ k ∉ dict_keys new := by
  simp [compare_dictionaries, List.mem_insertionSort, List.mem_filter, List.mem_dedup,
    and_comm]

theorem sorted_cd_added (old : List (String × β)) (new : List (String × γ)) :
    (compare_dictionaries old new).1.Sorted strLe :=
  List.sorted_insertionSort strLe _

theorem sorted_cd_same (old : List (String × β)) (new : List (String × γ)) :
    (compare_dictionaries old new).2.1.Sorted strLe :=
  List.sorted_insertionSort strLe _

theorem sorted_cd_deleted (old : List (String × β)) (new : List (String × γ)) :
    (compare_dictionaries old new).2.2.Sorted strLe :=
  List.sorted_insertionSort strLe _

theorem nodup_cd_added (old : List (String × β)) (new : List (String × γ)) :
    (compare_dictionaries old new).1.Nodup :=
  ((List.perm_insertionSort strLe _).nodup_iff).mpr (List.Nodup.filter _ (List.nodup_dedup _))

theorem nodup_cd_same (old : List (String × β)) (new : List (String × γ)) :
    (compare_dictionaries old new).2.1.Nodup :=
  ((List.perm_insertionSort strLe _).nodup_iff).mpr (List.Nodup.filter _ (List.nodup_dedup _))

theorem nodup_cd_deleted (old : List (String × β)) (new : List (String × γ)) :
    (compare_dictionaries old new).2.2.Nodup :=
  ((List.perm_insertionSort strLe _).nodup_iff).mpr (List.Nodup.filter _ (List.nodup_dedup _))

/-- Reconciling a dict against itself: nothing added, nothing deleted,
every key common. -/
theorem cd_self (d : List (String × β)) :
    compare_dictionaries d d = ([], (dict_keys d).dedup.insertionSort strLe, []) := by
  have hadd : (compare_dictionaries d d).1 = [] :=
    List.eq_nil_iff_forall_not_mem.mpr (fun k hk => by
      rw [mem_cd_added] at hk; exact hk.2 hk.1)
  have hdel : (compare_dictionaries d d).2.2 = [] :=
    List.eq_nil_iff_forall_not_mem.mpr (fun k hk => by
      rw [mem_cd_deleted] at hk; exact hk.2 hk.1)
  have hsame : (compare_dictionaries d d).2.1 = (dict_keys d).dedup.insertionSort strLe := by
    simp only [compare_dictionaries]
    congr 1
    exact List.filter_eq_self.mpr (fun a ha => by simpa using ha)
  calc compare_dictionaries d d
      = ((compare_dictionaries d d).1,
         (compare_dictionaries d d).2.1,
         (compare_dictionaries d d).2.2) := rfl
    _ = ([], (dict_keys d).dedup.insertionSort strLe, []) := by
        rw [hadd, hsame, hdel]

theorem except_bind_ok (x : β) (f : β → Except ε γ) :
    (Except.ok x : Except ε β) >>= f = f x := rfl

theorem except_pure_eq (x : β) : (pure x : Except ε β) = Except.ok x := rfl

theorem exMapM_ok (f : α → Except ε β) (g : α → β) (l : List α)
    (h : ∀ a ∈ l, f a = .ok (g a)) : exMapM f l = .ok (l.map g) := by
  induction l with
  | nil => rfl
  | cons a as ih =>
    have ha := h a (by simp)
    have has : ∀ x ∈ as, f x = .ok (g x) := fun x hx => h x (by simp [hx])
    simp [exMapM, ha, ih has, except_bind_ok, except_pure_eq]

theorem exFilterMapM_ok (f : α → Except ε (Option β)) (g : α → Option β) (l : List α)
    (h : ∀ a ∈ l, f a = .ok (g a)) : exFilterMapM f l = .ok (l.filterMap g) := by
  induction l with
  | nil => rfl
  | cons a as ih =>
    have ha := h a (by simp)
    have has : ∀ x ∈ as, f x = .ok (g x) := fun x hx => h x (by simp [hx])
    cases hga : g a with
    | none =>
      simp [exFilterMapM, ha, ih has, except_bind_ok, except_pure_eq, hga,
        List.filterMap_cons]
    | some b =>
      simp [exFilterMapM, ha, ih has, except_bind_ok, except_pure_eq, hga,
        List.filterMap_cons]

theorem build_action_props_loop_deleted (getv : String → PyVal)
    (properties : List (String × String)) :
    ∀ acc, build_action_props_loop "deleted" getv acc properties
      = .ok (acc ++ inventory_old getv properties) := by
  induction properties with
  | nil => intro acc; simp [build_action_props_loop, inventory_old]
  | cons q rest ih =>
    intro acc
    by_cases hv : converter (getv q.1) q.2 = PyVal.none <;>
      simp [build_action_props_loop, hv, ih, inventory_old, List.filterMap_cons]

theorem build_action_props_deleted (getv : String → PyVal)
    (properties : List (String × String)) :
    build_action_props "deleted" getv properties = .ok (inventory_old getv properties) := by
  simpa using build_action_props_loop_deleted getv properties []

theorem build_action_props_loop_added (getv : String → PyVal)
    (properties : List (String × String)) :
    ∀ acc, build_action_props_loop "added" getv acc properties
      = .ok (acc ++ inventory_new getv properties) := by
  induction properties with
  | nil => intro acc; simp [build_action_props_loop, inventory_new]
  | cons q rest ih =>
    intro acc
    by_cases hv : converter (getv q.1) q.2 = PyVal.none <;>
      simp [build_action_props_loop, hv, ih, inventory_new, List.filterMap_cons]

theorem build_action_props_added (getv : String → PyVal)
    (properties : List (String × String)) :
    build_action_props "added" getv properties = .ok (inventory_new getv properties) := by
  simpa using build_action_props_loop_added getv properties []

theorem build_action_props_unknown (action : String) (getv : String → PyVal)
    (properties : List (String × String))
    (hdel : action ≠ "deleted") (hadd : action ≠ "added") (hne : properties ≠ []) :
    build_action_props action getv properties = .error ("unknown action: " ++ action) := by
  cases properties with
  | nil => exact absurd rfl hne
  | cons q rest => simp [build_action_props, build_action_props_loop, hdel, hadd]

theorem build_action_deleted (getv : String → PyVal) (properties : List (String × String))
    (signals : Option (List (String × Change))) :
    build_action "deleted" getv properties signals
      = .ok (build_change "deleted" (.deltas (inventory_old getv properties)) signals) := by
  simp [build_action, build_action_props_deleted, except_bind_ok, except_pure_eq]

theorem build_action_added (getv : String → PyVal) (properties : List (String × String))
    (signals : Option (List (String × Change))) :
    build_action "added" getv properties signals
      = .ok (build_change "added" (.deltas (inventory_new getv properties)) signals) := by
  simp [build_action, build_action_props_added, except_bind_ok, except_pure_eq]

theorem message_signals_deleted (signals : List (String × Signal)) :
    message_signals "deleted" signals
      = .ok (signals.map (fun q => (q.1, removed_signal_change q.2))) :=
  exMapM_ok _ _ _ (fun q _ => by
    simp [build_action_deleted, except_bind_ok, except_pure_eq, removed_signal_change,
      build_change])

theorem message_signals_added (signals : List (String × Signal)) :
    message_signals "added" signals
      = .ok (signals.map (fun q => (q.1, added_signal_change q.2))) :=
  exMapM_ok _ _ _ (fun q _ => by
    simp [build_action_added, except_bind_ok, except_pure_eq, added_signal_change,
      build_change])

theorem compare_messages_eq (old_message new_message : MsgEnt) :
    compare_messages old_message new_message
      = .ok (compare_messages_run old_message new_message) := by
  have hdel := exFilterMapM_ok
    (fun name =>
      match alookup old_message.msg_signals name with
      | some s => do
        let c ← build_action "deleted" (getattrSig s) signal_properties
        Except.ok (some (name, c))
      | Option.none => Except.ok Option.none)
    (fun name =>
      (alookup old_message.msg_signals name).map (fun s => (name, removed_signal_change s)))
    (compare_dictionaries old_message.msg_signals new_message.msg_signals).2.2
    (fun name _ => by
      cases hs : alookup old_message.msg_signals name with
      | none => simp [hs, except_pure_eq]
      | some s =>
        simp [hs, build_action_deleted, except_bind_ok, except_pure_eq,
          removed_signal_change, build_change])
  have hadd := exFilterMapM_ok
    (fun name =>
      match alookup new_message.msg_signals name with
      | some s => do
        let c ← build_action "added" (getattrSig s) signal_properties
        Except.ok (some (name, c))
      | Option.none => Except.ok Option.none)
    (fun name =>
      (alookup new_message.msg_signals name).map (fun s => (name, added_signal_change s)))
    (compare_dictionaries old_message.msg_signals new_message.msg_signals).1
    (fun name _ => by
      cases hs : alookup new_message.msg_signals name with
      | none => simp [hs, except_pure_eq]
      | some s =>
        simp [hs, build_action_added, except_bind_ok, except_pure_eq,
          added_signal_change, build_change])
  simp only [compare_messages, compare_messages_run, except_pure_eq, except_bind_ok,
    hdel, hadd]

theorem compare_dbc_eq (old_dbc_file_path new_dbc_file_path : Option Dbc) :
    compare_dbc old_dbc_file_path new_dbc_file_path
      = .ok (compare_dbc_run old_dbc_file_path new_dbc_file_path) := by
  have hsame := exFilterMapM_ok
    (fun name =>
      match alookup (dbc_loader old_dbc_file_path).1 name,
            alookup (dbc_loader new_dbc_file_path).1 name with
      | some o, some n => do
        let pr ← compare_messages o n
        Except.ok (if pr.1.length > 0 ∨ pr.2.length > 0 then
                some (name, build_change "changed" (.deltas pr.1) (some pr.2))
              else
                Option.none)
      | _, _ => Except.ok Option.none)
    (fun name =>
      match alookup (dbc_loader old_dbc_file_path).1 name,
            alookup (dbc_loader new_dbc_file_path).1 name with
      | some o, some n =>
        let pr := compare_messages_run o n
        if pr.1.length > 0 ∨ pr.2.length > 0 then
          some (name, build_change "changed" (.deltas pr.1) (some pr.2))
        else
          Option.none
      | _, _ => Option.none)
    (compare_dictionaries (dbc_loader old_dbc_file_path).1 (dbc_loader new_dbc_file_path).1).2.1
    (fun name _ => by
      cases h1 : alookup (dbc_loader old_dbc_file_path).1 name with
      | none => simp [h1]
      | some o =>
        cases h2 : alookup (dbc_loader new_dbc_file_path).1 name with
        | none => simp [h1, h2]
        | some n => simp [h1, h2, compare_messages_eq, except_bind_ok])
  have hdel := exFilterMapM_ok
    (fun name =>
      match alookup (dbc_loader old_dbc_file_path).1 name with
      | some m => do
        let sigs ← message_signals "deleted" m.msg_signals
        let c ← build_action "deleted" (getattrMsg m.message) message_properties (some sigs)
        Except.ok (some (name, c))
      | Option.none => Except.ok Option.none)
    (fun name =>
      (alookup (dbc_loader old_dbc_file_path).1 name).map
        (fun m => (name, removed_message_change m)))
    (compare_dictionaries (dbc_loader old_dbc_file_path).1 (dbc_loader new_dbc_file_path).1).2.2
    (fun name _ => by
      cases h1 : alookup (dbc_loader old_dbc_file_path).1 name with
      | none => simp [h1]
      | some m =>
        simp [h1, message_signals_deleted, build_action_deleted, except_bind_ok,
          removed_message_change])
  have hadd := exFilterMapM_ok
    (fun name =>
      match alookup (dbc_loader new_dbc_file_path).1 name with
      | some m => do
        let sigs ← message_signals "added" m.msg_signals
        let c ← build_action "added" (getattrMsg m.message) message_properties (some sigs)
        Except.ok (some (name, c))
      | Option.none => Except.ok Option.none)
    (fun name =>
      (alookup (dbc_loader new_dbc_file_path).1 name).map
        (fun m => (name, added_message_change m)))
    (compare_dictionaries (dbc_loader old_dbc_file_path).1 (dbc_loader new_dbc_file_path).1).1
    (fun name _ => by
      cases h1 : alookup (dbc_loader new_dbc_file_path).1 name with
      | none => simp [h1]
      | some m =>
        simp [h1, message_signals_added, build_action_added, except_bind_ok,
          added_message_change])
  simp only [compare_dbc, compare_dbc_run, except_pure_eq, except_bind_ok,
    hsame, hdel, hadd]

theorem get_report_eq (old_files new_files : List (String × Dbc)) (unchanged : Bool) :
    get_report old_files new_files unchanged
      = .ok (get_report_run old_files new_files unchanged) := by
  have hadd := exFilterMapM_ok
    (fun file_added =>
      match alookup new_files file_added with
      | some d => do
        let pr ← compare_dbc Option.none (some d)
        Except.ok (some (file_added, FileEntry.mk (build_change "added" (.nested pr.1)) pr.2))
      | Option.none => Except.ok Option.none)
    (fun f => (alookup new_files f).map (fun d => (f, added_file_entry d)))
    (compare_dictionaries old_files new_files).1
    (fun f _ => by
      cases h1 : alookup new_files f with
      | none => simp [h1]
      | some d => simp [h1, compare_dbc_eq, except_bind_ok, added_file_entry])
  have hdel := exFilterMapM_ok
    (fun file_deleted =>
      match alookup old_files file_deleted with
      | some d => do
        let pr ← compare_dbc (some d) Option.none
        Except.ok (some (file_deleted,
          FileEntry.mk (build_change "deleted" (.nested pr.1)) pr.2))
      | Option.none => Except.ok Option.none)
    (fun f => (alookup old_files f).map (fun d => (f, removed_file_entry d)))
    (compare_dictionaries old_files new_files).2.2
    (fun f _ => by
      cases h1 : alookup old_files f with
      | none => simp [h1]
      | some d => simp [h1, compare_dbc_eq, except_bind_ok, removed_file_entry])
  have hsame := exFilterMapM_ok
    (fun file_same =>
      match alookup old_files file_same, alookup new_files file_same with
      | some dold, some dnew => do
        let pr ← compare_dbc (some dold) (some dnew)
        Except.ok (if pr.1.length > 0 ∨ pr.2.same_version = false then
                some (file_same, FileEntry.mk (build_change "changed" (.nested pr.1)) pr.2)
              else if unchanged then
                some (file_same, FileEntry.mk (build_change "unchanged" (.nested pr.1)) pr.2)
              else
                Option.none)
      | _, _ => Except.ok Option.none)
    (fun f =>
      match alookup old_files f, alookup new_files f with
      | some dold, some dnew => (common_file_entry unchanged dold dnew).map (fun e => (f, e))
      | _, _ => Option.none)
    (compare_dictionaries old_files new_files).2.1
    (fun f _ => by
      cases h1 : alookup old_files f with
      | none => simp [h1]
      | some dold =>
        cases h2 : alookup new_files f with
        | none => simp [h1, h2]
        | some dnew =>
          simp only [h1, h2, compare_dbc_eq, except_bind_ok, common_file_entry]
          split_ifs <;> simp)
  simp only [get_report, get_report_run, except_pure_eq, except_bind_ok,
    hadd, hdel, hsame]

/-- Looking up a key in a report whose entries are keyed by the name
that generated them. -/
theorem alookup_filterMap_keyed [DecidableEq α] (l : List α) (f : α → Option (α × γ))
    (hkey : ∀ n p, f n = some p → p.1 = n) (k : α) :
    alookup (l.filterMap f) k = if k ∈ l then (f k).map Prod.snd else Option.none := by
  induction l with
  | nil => simp [alookup]
  | cons a rest ih =>
    by_cases hka : k = a
    · subst hka
      cases hf : f k with
      | none => simp [List.filterMap_cons, hf, ih]
      | some p =>
        have hp := hkey k p hf
        obtain ⟨p1, p2⟩ := p
        simp only at hp
        subst hp
        simp [List.filterMap_cons, hf, alookup]
    · cases hf : f a with
      | none => simp [List.filterMap_cons, hf, ih, hka]
      | some p =>
        have hp := hkey a p hf
        obtain ⟨p1, p2⟩ := p
        simp only at hp
        subst hp
        simp [List.filterMap_cons, hf, alookup, hka, ih]

/-- Keys of a report whose entries are keyed by the generating name,
when every name produces an entry. -/
theorem dict_keys_filterMap_keyed [DecidableEq α] (l : List α) (f : α → Option (α × γ))
    (hkey : ∀ n p, f n = some p → p.1 = n) (htot : ∀ n ∈ l, (f n).isSome) :
    dict_keys (l.filterMap f) = l := by
  induction l with
  | nil => rfl
  | cons a rest ih =>
    have ha := htot a (by simp)
    cases hf : f a with
    | none => rw [hf] at ha; cases ha
    | some p =>
      have hp := hkey a p hf
      obtain ⟨p1, p2⟩ := p
      simp only at hp
      subst hp
      simp only [List.filterMap_cons, hf, dict_keys, List.map_cons]
      rw [show List.map Prod.fst (List.filterMap f rest) = dict_keys (List.filterMap f rest)
        from rfl, ih (fun n hn => htot n (by simp [hn]))]

/-- `converter` maps `None` to `None` and nothing else to `None`:
a value is absent after normalization exactly when it was absent. -/
theorem converter_none_iff (value : PyVal) (from_type : String) :
    converter value from_type = PyVal.none ↔ value = PyVal.none := by
  cases value <;> simp [converter] <;> split_ifs <;> simp

/-- The two full-inventory delta lists, rephrased by the rawness test
the specification uses (attribute non-null on the source side) instead
of the converted test the loop performs; `converter_none_iff` makes the
two coincide. -/
theorem inventory_old_eq_raw (getv : String → PyVal) (props : List (String × String)) :
    inventory_old getv props = props.filterMap (fun q =>
      if getv q.1 = PyVal.none then Option.none
      else some (PropDelta.mk q.1 (converter (getv q.1) q.2) PyVal.none)) := by
  unfold inventory_old
  congr 1
  funext q
  by_cases h : getv q.1 = PyVal.none
  · simp [h, converter]
  · have hc : converter (getv q.1) q.2 ≠ PyVal.none := fun hc =>
      h ((converter_none_iff (getv q.1) q.2).mp hc)
    simp [h, hc]

theorem inventory_new_eq_raw (getv : String → PyVal) (props : List (String × String)) :
    inventory_new getv props = props.filterMap (fun q =>
      if getv q.1 = PyVal.none then Option.none
      else some (PropDelta.mk q.1 PyVal.none (converter (getv q.1) q.2))) := by
  unfold inventory_new
  congr 1
  funext q
  by_cases h : getv q.1 = PyVal.none
  · simp [h, converter]
  · have hc : converter (getv q.1) q.2 ≠ PyVal.none := fun hc =>
      h ((converter_none_iff (getv q.1) q.2).mp hc)
    simp [h, hc]

/-- Comparing an object against itself yields no deltas. -/
theorem compare_properties_self (getv : String → PyVal) (props : List (String × String)) :
    compare_properties getv getv props = [] := by
  unfold compare_properties
  exact List.filterMap_eq_nil_iff.mpr (fun q _ => by simp)

/-- Every delta is named after a schema attribute. -/
theorem compare_properties_filter_nil (getv_old getv_new : String → PyVal)
    (props : List (String × String)) (target : String)
    (h : ∀ q ∈ props, q.1 ≠ target) :
    (compare_properties getv_old getv_new props).filter (fun d => d.name == target) = [] := by
  induction props with
  | nil => rfl
  | cons q rest ih =>
    have hq := h q (by simp)
    have hrest : ∀ p ∈ rest, p.1 ≠ target := fun p hp => h p (by simp [hp])
    have htail := ih hrest
    by_cases hc : converter (getv_old q.1) q.2 = converter (getv_new q.1) q.2
    · simp only [compare_properties] at htail ⊢
      simp only [List.filterMap_cons, hc, ne_eq, not_true_eq_false, if_false]
      exact htail
    · have hbeq : (q.1 == target) = false := by simp [hq]
      simp only [compare_properties] at htail ⊢
      simp only [List.filterMap_cons, hc, ne_eq, not_false_eq_true, if_true,
        List.filter_cons, hbeq, Bool.false_eq_true, if_false]
      exact htail

/-- Splitting a property comparison along a schema decomposition. -/
theorem compare_properties_append (getv_old getv_new : String → PyVal)
    (ps qs : List (String × String)) :
    compare_properties getv_old getv_new (ps ++ qs)
      = compare_properties getv_old getv_new ps ++ compare_properties getv_old getv_new qs := by
  unfold compare_properties
  exact List.filterMap_append _ _ _

/-- Sorted normalization is invariant under permutation of the
(integer-keyed, duplicate-free) contents of the mapping. -/
theorem pyDictNorm_perm (c1 c2 : List (CKey × String))
    (hnd : NodupKeys (choiceInts c1))
    (hperm : (choiceInts c1).Perm (choiceInts c2)) :
    pyDictNorm c1 = pyDictNorm c2 := by
  have hnd2 : NodupKeys (choiceInts c2) := by
    unfold NodupKeys dict_keys at hnd ⊢
    exact ((hperm.map Prod.fst).nodup_iff).mp hnd
  show (pyDict (choiceInts c1)).insertionSort pairLe
    = (pyDict (choiceInts c2)).insertionSort pairLe
  rw [pyDict_of_nodupKeys _ hnd, pyDict_of_nodupKeys _ hnd2]
  exact List.eq_of_perm_of_sorted
    (((List.perm_insertionSort pairLe (choiceInts c1)).trans hperm).trans
      (List.perm_insertionSort pairLe (choiceInts c2)).symm)
    (List.sorted_insertionSort pairLe (choiceInts c1))
    (List.sorted_insertionSort pairLe (choiceInts c2))

theorem changeOk_deltas (a : String) (d : List PropDelta) (ha : a ∈ okActions) :
    ChangeOk (Change.mk a (.deltas d) Option.none) :=
  ChangeOk.intro a _ _ ha (fun l hl => by cases hl) (fun l hl => by cases hl)

theorem changeOk_removed_signal (s : Signal) : ChangeOk (removed_signal_change s) :=
  changeOk_deltas _ _ (by simp [okActions])

theorem changeOk_added_signal (s : Signal) : ChangeOk (added_signal_change s) :=
  changeOk_deltas _ _ (by simp [okActions])

theorem changeOk_removed_message (m : MsgEnt) : ChangeOk (removed_message_change m) := by
  refine ChangeOk.intro _ _ _ (by simp [okActions]) (fun l hl => by cases hl) ?_
  intro l hl q hq
  injection hl with hl
  subst hl
  obtain ⟨n, c⟩ := q
  obtain ⟨⟨sn, s⟩, _, hcq⟩ := List.mem_map.mp hq
  injection hcq with h1 h2
  subst h2
  exact changeOk_removed_signal s

theorem changeOk_added_message (m : MsgEnt) : ChangeOk (added_message_change m) := by
  refine ChangeOk.intro _ _ _ (by simp [okActions]) (fun l hl => by cases hl) ?_
  intro l hl q hq
  injection hl with hl
  subst hl
  obtain ⟨n, c⟩ := q
  obtain ⟨⟨sn, s⟩, _, hcq⟩ := List.mem_map.mp hq
  injection hcq with h1 h2
  subst h2
  exact changeOk_added_signal s

theorem changeOk_compare_messages_run (o n : MsgEnt) (q : String × Change)
    (hq : q ∈ (compare_messages_run o n).2) : ChangeOk q.2 := by
  simp only [compare_messages_run] at hq
  rcases List.mem_append.mp hq with hq2 | hq2
  · rcases List.mem_append.mp hq2 with hq3 | hq3
    · obtain ⟨name, _, hfn⟩ := List.mem_filterMap.mp hq3
      cases h1 : alookup o.msg_signals name with
      | none => rw [h1] at hfn; cases h1' : alookup n.msg_signals name <;>
          rw [h1'] at hfn <;> simp at hfn
      | some so =>
        cases h2 : alookup n.msg_signals name with
        | none => rw [h1, h2] at hfn; simp at hfn
        | some sn =>
          rw [h1, h2] at hfn
          by_cases hlen : (compare_properties (getattrSig so) (getattrSig sn)
              signal_properties).length > 0
          · simp only [hlen, if_true] at hfn
            injection hfn with hfn
            rw [← hfn]
            exact changeOk_deltas _ _ (by simp [okActions])
          · simp [hlen] at hfn
    · obtain ⟨name, _, hfn⟩ := List.mem_filterMap.mp hq3
      cases h1 : alookup o.msg_signals name with
      | none => rw [h1] at hfn; simp at hfn
      | some s =>
        rw [h1] at hfn
        injection hfn with hfn
        rw [← hfn]
        exact changeOk_removed_signal s
  · obtain ⟨name, _, hfn⟩ := List.mem_filterMap.mp hq2
    cases h1 : alookup n.msg_signals name with
    | none => rw [h1] at hfn; simp at hfn
    | some s =>
      rw [h1] at hfn
      injection hfn with hfn
      rw [← hfn]
      exact changeOk_added_signal s

theorem changeOk_compare_dbc_run (o n : Option Dbc) (q : String × Change)
    (hq : q ∈ (compare_dbc_run o n).1) : ChangeOk q.2 := by
  simp only [compare_dbc_run] at hq
  rcases List.mem_append.mp hq with hq2 | hq2
  · rcases List.mem_append.mp hq2 with hq3 | hq3
    · obtain ⟨name, _, hfn⟩ := List.mem_filterMap.mp hq3
      cases h1 : alookup (dbc_loader o).1 name with
      | none => rw [h1] at hfn; cases h1' : alookup (dbc_loader n).1 name <;>
          rw [h1'] at hfn <;> simp at hfn
      | some om =>
        cases h2 : alookup (dbc_loader n).1 name with
        | none => rw [h1, h2] at hfn; simp at hfn
        | some nm =>
          rw [h1, h2] at hfn
          by_cases hlen : (compare_messages_run om nm).1.length > 0
              ∨ (compare_messages_run om nm).2.length > 0
          · simp only [hlen, if_true] at hfn
            injection hfn with hfn
            rw [← hfn]
            refine ChangeOk.intro _ _ _ (by simp [okActions]) (fun l hl => by cases hl) ?_
            intro l hl p hp
            injection hl with hl
            subst hl
            exact changeOk_compare_messages_run om nm p hp
          · simp [hlen] at hfn
    · obtain ⟨name, _, hfn⟩ := List.mem_filterMap.mp hq3
      cases h1 : alookup (dbc_loader o).1 name with
      | none => rw [h1] at hfn; simp at hfn
      | some m =>
        rw [h1] at hfn
        injection hfn with hfn
        rw [← hfn]
        exact changeOk_removed_message m
  · obtain ⟨name, _, hfn⟩ := List.mem_filterMap.mp hq2
    cases h1 : alookup (dbc_loader n).1 name with
    | none => rw [h1] at hfn; simp at hfn
    | some m =>
      rw [h1] at hfn
      injection hfn with hfn
      rw [← hfn]
      exact changeOk_added_message m

theorem changeOk_get_report_run (old_files new_files : List (String × Dbc)) (u : Bool)
    (q : String × FileEntry) (hq : q ∈ get_report_run old_files new_files u) :
    ChangeOk q.2.change := by
  have hnested : ∀ (a : String) (rep : List (String × Change)),
      a ∈ okActions →
      (∀ p ∈ rep, ChangeOk p.2) →
      ChangeOk (Change.mk a (.nested rep) Option.none) := by
    intro a rep ha hrep
    refine ChangeOk.intro _ _ _ ha ?_ (fun l hl => by cases hl)
    intro l hl p hp
    injection hl with hl
    subst hl
    exact hrep p hp
  simp only [get_report_run] at hq
  rcases List.mem_append.mp hq with hq2 | hq2
  · rcases List.mem_append.mp hq2 with hq3 | hq3
    · obtain ⟨f, _, hfn⟩ := List.mem_filterMap.mp hq3
      cases h1 : alookup new_files f with
      | none => rw [h1] at hfn; simp at hfn
      | some d =>
        rw [h1] at hfn
        injection hfn with hfn
        rw [← hfn]
        exact hnested _ _ (by simp [okActions])
          (fun p hp => changeOk_compare_dbc_run Option.none (some d) p hp)
    · obtain ⟨f, _, hfn⟩ := List.mem_filterMap.mp hq3
      cases h1 : alookup old_files f with
      | none => rw [h1] at hfn; simp at hfn
      | some d =>
        rw [h1] at hfn
        injection hfn with hfn
        rw [← hfn]
        exact hnested _ _ (by simp [okActions])
          (fun p hp => changeOk_compare_dbc_run (some d) Option.none p hp)
  · obtain ⟨f, _, hfn⟩ := List.mem_filterMap.mp hq2
    cases h1 : alookup old_files f with
    | none => rw [h1] at hfn; simp at hfn
    | some dold =>
      cases h2 : alookup new_files f with
      | none => rw [h1, h2] at hfn; simp at hfn
      | some dnew =>
        rw [h1, h2] at hfn
        simp only [common_file_entry] at hfn
        by_cases hcond : (compare_dbc_run (some dold) (some dnew)).1.length > 0
            ∨ (compare_dbc_run (some dold) (some dnew)).2.same_version = false
        · simp only [hcond, if_true, Option.map_some] at hfn
          injection hfn with hfn
          rw [← hfn]
          exact hnested _ _ (by simp [okActions])
            (fun p hp => changeOk_compare_dbc_run (some dold) (some dnew) p hp)
        · simp only [hcond, if_false] at hfn
          by_cases hu : u
          · simp only [hu, if_true, Option.map_some] at hfn
            injection hfn with hfn
            rw [← hfn]
            exact hnested _ _ (by simp [okActions])
              (fun p hp => changeOk_compare_dbc_run (some dold) (some dnew) p hp)
          · simp [hu] at hfn

/-- Reconciling a dict against an empty right side: everything deleted. -/
theorem cd_right_empty (d : List (String × β)) :
    compare_dictionaries d ([] : List (String × γ))
      = ([], [], (dict_keys d).dedup.insertionSort strLe) := by
  have hadd : (compare_dictionaries d ([] : List (String × γ))).1 = [] :=
    List.eq_nil_iff_forall_not_mem.mpr (fun k hk => by
      rw [mem_cd_added] at hk
      simp [dict_keys] at hk)
  have hsame : (compare_dictionaries d ([] : List (String × γ))).2.1 = [] :=
    List.eq_nil_iff_forall_not_mem.mpr (fun k hk => by
      rw [mem_cd_same] at hk
      simp [dict_keys] at hk)
  have hdel : (compare_dictionaries d ([] : List (String × γ))).2.2
      = (dict_keys d).dedup.insertionSort strLe := by
    simp only [compare_dictionaries]
    congr 1
    exact List.filter_eq_self.mpr (fun a _ => by simp [dict_keys])
  calc compare_dictionaries d ([] : List (String × γ))
      = ((compare_dictionaries d ([] : List (String × γ))).1,
         (compare_dictionaries d ([] : List (String × γ))).2.1,
         (compare_dictionaries d ([] : List (String × γ))).2.2) := rfl
    _ = ([], [], (dict_keys d).dedup.insertionSort strLe) := by rw [hadd, hsame, hdel]

/-- Reconciling an empty left side against a dict: everything added. -/
theorem cd_left_empty (d : List (String × γ)) :
    compare_dictionaries ([] : List (String × β)) d
      = ((dict_keys d).dedup.insertionSort strLe, [], []) := by
  have hsame : (compare_dictionaries ([] : List (String × β)) d).2.1 = [] :=
    List.eq_nil_iff_forall_not_mem.mpr (fun k hk => by
      rw [mem_cd_same] at hk
      simp [dict_keys] at hk)
  have hdel : (compare_dictionaries ([] : List (String × β)) d).2.2 = [] :=
    List.eq_nil_iff_forall_not_mem.mpr (fun k hk => by
      rw [mem_cd_deleted] at hk
      simp [dict_keys] at hk)
  have hadd : (compare_dictionaries ([] : List (String × β)) d).1
      = (dict_keys d).dedup.insertionSort strLe := by
    simp only [compare_dictionaries]
    congr 1
    exact List.filter_eq_self.mpr (fun a _ => by simp [dict_keys])
  calc compare_dictionaries ([] : List (String × β)) d
      = ((compare_dictionaries ([] : List (String × β)) d).1,
         (compare_dictionaries ([] : List (String × β)) d).2.1,
         (compare_dictionaries ([] : List (String × β)) d).2.2) := rfl
    _ = ((dict_keys d).dedup.insertionSort strLe, [], []) := by rw [hadd, hsame, hdel]

/-- Comparing a message entity against itself yields no deltas and no
signal changes. -/
theorem compare_messages_run_self (m : MsgEnt) : compare_messages_run m m = ([], []) := by
  unfold compare_messages_run
  rw [cd_self, compare_properties_self]
  simp only [List.filterMap_nil, List.append_nil, List.nil_append]
  refine Prod.ext rfl ?_
  simp only
  apply List.filterMap_eq_nil_iff.mpr
  intro name _
  cases h : alookup m.msg_signals name with
  | none => simp [h]
  | some s => simp [h, compare_properties_self]

/-- C1: for every pair of mappings, the Set Reconciler
(`compare_dictionaries`) returns three key sequences — added (keys only
in new), common (keys in both), removed-from-old (keys only in old) —
that are pairwise disjoint, cover exactly the union of the two key
sets, and are each sorted lexicographically (`strLe`, shown equal to
the standard lexicographic order by `strLe_iff`).  The function is a
pure function of its arguments, so it has no side effects on the
inputs. -/
theorem c1_set_reconciler_partitions {β γ : Type} (old : List (String × β))
    (new : List (String × γ)) :
    (∀ k, k ∈ (compare_dictionaries old new).1
        ↔ (k ∈ dict_keys new ∧ k ∉ dict_keys old)) ∧
    (∀ k, k ∈ (compare_dictionaries old new).2.1
        ↔ (k ∈ dict_keys old ∧ k ∈ dict_keys new)) ∧
    (∀ k, k ∈ (compare_dictionaries old new).2.2
        ↔ (k ∈ dict_keys old ∧ k ∉ dict_keys new)) ∧
    (∀ k, ¬(k ∈ (compare_dictionaries old new).1 ∧ k ∈ (compare_dictionaries old new).2.1)) ∧
    (∀ k, ¬(k ∈ (compare_dictionaries old new).1 ∧ k ∈ (compare_dictionaries old new).2.2)) ∧
    (∀ k, ¬(k ∈ (compare_dictionaries old new).2.1 ∧ k ∈ (compare_dictionaries old new).2.2)) ∧
    (∀ k, (k ∈ (compare_dictionaries old new).1 ∨ k ∈ (compare_dictionaries old new).2.1
            ∨ k ∈ (compare_dictionaries old new).2.2)
        ↔ (k ∈ dict_keys old ∨ k ∈ dict_keys new)) ∧
    (compare_dictionaries old new).1.Sorted strLe ∧
    (compare_dictionaries old new).2.1.Sorted strLe ∧
    (compare_dictionaries old new).2.2.Sorted strLe := by
  refine ⟨mem_cd_added old new, mem_cd_same old new, mem_cd_deleted old new, ?_, ?_, ?_, ?_,
    sorted_cd_added old new, sorted_cd_same old new, sorted_cd_deleted old new⟩
  · intro k ⟨h1, h2⟩
    rw [mem_cd_added] at h1
    rw [mem_cd_same] at h2
    exact h1.2 h2.1
  · intro k ⟨h1, h2⟩
    rw [mem_cd_added] at h1
    rw [mem_cd_deleted] at h2
    exact h1.2 h2.1
  · intro k ⟨h1, h2⟩
    rw [mem_cd_same] at h1
    rw [mem_cd_deleted] at h2
    exact h2.2 h1.2
  · intro k
    rw [mem_cd_added, mem_cd_same, mem_cd_deleted]
    constructor
    · rintro (⟨h1, _⟩ | ⟨h1, _⟩ | ⟨h1, _⟩)
      · exact Or.inr h1
      · exact Or.inl h1
      · exact Or.inl h1
    · intro h
      by_cases ho : k ∈ dict_keys old
      · by_cases hn : k ∈ dict_keys new
        · exact Or.inr (Or.inl ⟨ho, hn⟩)
        · exact Or.inr (Or.inr ⟨ho, hn⟩)
      · rcases h with h | h
        · exact absurd h ho
        · exact Or.inl ⟨h, ho⟩

/-- C2: diffing a catalog against itself yields an empty changed-message
map and `same_version = true` version metadata; and, in general, a
common message whose message-level delta list and signal-change map are
both empty is omitted from the catalog report entirely (its name is not
a key of the report, so it is not emitted under any tag such as
`unchanged`). -/
theorem c2_diff_self_empty :
    (∀ X : Dbc, compare_dbc (some X) (some X)
        = .ok ([], Versions.mk (some (version_of X)) (some (version_of X)) true))
  ∧ (∀ (dold dnew : Dbc) (name : String) (r : List (String × Change)) (v : Versions)
       (o n : MsgEnt),
       compare_dbc (some dold) (some dnew) = .ok (r, v) →
       alookup (dbc_loader (some dold)).1 name = some o →
       alookup (dbc_loader (some dnew)).1 name = some n →
       compare_messages o n = .ok ([], []) →
       alookup r name = Option.none) := by
  constructor
  · intro X
    rw [compare_dbc_eq]
    have hrun1 : (compare_dbc_run (some X) (some X)).1 = [] := by
      simp only [compare_dbc_run, cd_self, List.filterMap_nil, List.append_nil]
      apply List.filterMap_eq_nil_iff.mpr
      intro name _
      cases h : alookup (dbc_loader (some X)).1 name with
      | none => simp [h]
      | some m => simp [h, compare_messages_run_self]
    have hrun2 : (compare_dbc_run (some X) (some X)).2
        = Versions.mk (some (version_of X)) (some (version_of X)) true := by
      simp [compare_dbc_run, dbc_loader]
    exact congrArg Except.ok (Prod.ext hrun1 hrun2)
  · intro dold dnew name r v o n heq h1 h2 hcm
    have hrv : (r, v) = compare_dbc_run (some dold) (some dnew) := by
      have := compare_dbc_eq (some dold) (some dnew)
      rw [heq] at this
      injection this
    have hr : r = (compare_dbc_run (some dold) (some dnew)).1 := by rw [← hrv]
    have hcmrun : compare_messages_run o n = ([], []) := by
      have := compare_messages_eq o n
      rw [hcm] at this
      injection this with this
      exact this.symm
    have hko : name ∈ dict_keys (dbc_loader (some dold)).1 :=
      alookup_mem_keys_of_some _ _ _ h1
    have hkn : name ∈ dict_keys (dbc_loader (some dnew)).1 :=
      alookup_mem_keys_of_some _ _ _ h2
    rw [hr]
    simp only [compare_dbc_run]
    rw [alookup_append, alookup_append]
    have hs : alookup
        ((compare_dictionaries (dbc_loader (some dold)).1 (dbc_loader (some dnew)).1).2.1.filterMap
          (fun nm =>
            match alookup (dbc_loader (some dold)).1 nm, alookup (dbc_loader (some dnew)).1 nm with
            | some o2, some n2 =>
              let pr := compare_messages_run o2 n2
              if pr.1.length > 0 ∨ pr.2.length > 0 then
                some (nm, build_change "changed" (.deltas pr.1) (some pr.2))
              else
                Option.none
            | _, _ => Option.none)) name = Option.none := by
      rw [alookup_filterMap_keyed _ _ ?hkey name]
      case hkey =>
        intro nm p hp
        cases ha : alookup (dbc_loader (some dold)).1 nm with
        | none => rw [ha] at hp; cases hb : alookup (dbc_loader (some dnew)).1 nm <;>
            rw [hb] at hp <;> cases hp
        | some o2 =>
          cases hb : alookup (dbc_loader (some dnew)).1 nm with
          | none => rw [ha, hb] at hp; cases hp
          | some n2 =>
            rw [ha, hb] at hp
            by_cases hc : (compare_messages_run o2 n2).1.length > 0
                ∨ (compare_messages_run o2 n2).2.length > 0
            · simp only [hc, if_true] at hp
              injection hp with hp
              rw [← hp]
            · simp [hc] at hp
      rw [if_pos ((mem_cd_same _ _ name).mpr ⟨hko, hkn⟩)]
      rw [h1, h2]
      simp [hcmrun]
    have hd : alookup
        ((compare_dictionaries (dbc_loader (some dold)).1 (dbc_loader (some dnew)).1).2.2.filterMap
          (fun nm => (alookup (dbc_loader (some dold)).1 nm).map
            (fun m => (nm, removed_message_change m)))) name = Option.none := by
      rw [alookup_filterMap_keyed _ _ ?hkey2 name]
      case hkey2 =>
        intro nm p hp
        cases ha : alookup (dbc_loader (some dold)).1 nm with
        | none => rw [ha] at hp; cases hp
        | some m2 =>
          rw [ha] at hp
          injection hp with hp
          rw [← hp]
      rw [if_neg]
      intro hmem
      exact ((mem_cd_deleted _ _ name).mp hmem).2 hkn
    have hA : alookup
        ((compare_dictionaries (dbc_loader (some dold)).1 (dbc_loader (some dnew)).1).1.filterMap
          (fun nm => (alookup (dbc_loader (some dnew)).1 nm).map
            (fun m => (nm, added_message_change m)))) name = Option.none := by
      rw [alookup_filterMap_keyed _ _ ?hkey3 name]
      case hkey3 =>
        intro nm p hp
        cases ha : alookup (dbc_loader (some dnew)).1 nm with
        | none => rw [ha] at hp; cases hp
        | some m2 =>
          rw [ha] at hp
          injection hp with hp
          rw [← hp]
      rw [if_neg]
      intro hmem
      exact ((mem_cd_added _ _ name).mp hmem).2 hko
    rw [hs, hd, hA]

/-- C5 (corrected): the version metadata of every catalog comparison
carries `old_version`/`new_version` exactly when the corresponding
source side was supplied, and `same_version` is the equality of the two
loader results — where a supplied side's version string is defaulted to
`"unknown"` only when the file's own version is absent or empty, while
an entirely absent side contributes `None` (not the `"unknown"`
sentinel). -/
theorem c5_version_metadata (o n : Option Dbc) :
    ∃ r : List (String × Change),
      compare_dbc o n
        = .ok (r, Versions.mk (dbc_loader o).2 (dbc_loader n).2
            ((dbc_loader o).2 == (dbc_loader n).2))
      ∧ ((dbc_loader o).2.isSome ↔ o.isSome)
      ∧ ((dbc_loader n).2.isSome ↔ n.isSome)
      ∧ (∀ d : Dbc, (dbc_loader (some d)).2 = some (version_of d)) := by
  refine ⟨(compare_dbc_run o n).1, ?_, ?_, ?_, fun d => rfl⟩
  · rw [compare_dbc_eq]
    have hv : (compare_dbc_run o n).2
        = Versions.mk (dbc_loader o).2 (dbc_loader n).2
            ((dbc_loader o).2 == (dbc_loader n).2) := by
      simp only [compare_dbc_run]
      cases o <;> cases n <;> simp [dbc_loader]
    exact congrArg Except.ok (Prod.ext rfl hv)
  · cases o <;> simp [dbc_loader]
  · cases n <;> simp [dbc_loader]

/-- C5 counterexample to the claim as stated: compare a catalog whose
version defaults to the sentinel `"unknown"` against an absent new
side.  The claim predicts `same_version` = (`"unknown"` == `"unknown"`)
= `true` (both sides defaulted to the sentinel when absent); the code
leaves the absent side's version as `None` and reports
`same_version = false`. -/
theorem c5_counterexample :
    compare_dbc (some wDbcNoVer) Option.none
      = .ok ([], Versions.mk (some "unknown") Option.none false)
    ∧ version_of wDbcNoVer = "unknown"
    ∧ (false : Bool) ≠ (("unknown" : String) == "unknown") := by
  refine ⟨?_, rfl, by decide⟩
  rw [compare_dbc_eq]
  rfl

/-- Head decomposition of a property comparison. -/
theorem compare_properties_cons (getv_old getv_new : String → PyVal)
    (q : String × String) (rest : List (String × String)) :
    compare_properties getv_old getv_new (q :: rest)
      = (if converter (getv_old q.1) q.2 ≠ converter (getv_new q.1) q.2
         then [PropDelta.mk q.1 (converter (getv_old q.1) q.2) (converter (getv_new q.1) q.2)]
         else [])
        ++ compare_properties getv_old getv_new rest := by
  unfold compare_properties
  rw [List.filterMap_cons]
  by_cases h : converter (getv_old q.1) q.2 = converter (getv_new q.1) q.2 <;> simp [h]

/-- C8: hex normalization of the message identifier.  Two messages with
identifier `100` produce no `frame_id` delta (whatever their other
attributes do); identifiers `100` versus `101` produce exactly one
`frame_id` delta with old `"0x64"` and new `"0x65"`, the lowercase
`0x`-prefixed hex renderings. -/
theorem c8_hex_normalization :
    (∀ m1 m2 : Message, m1.frame_id = some 100 → m2.frame_id = some 100 →
       (compare_properties (getattrMsg m1) (getattrMsg m2) message_properties).filter
         (fun d => d.name == "frame_id") = [])
  ∧ (∀ m1 m2 : Message, m1.frame_id = some 100 → m2.frame_id = some 101 →
       (compare_properties (getattrMsg m1) (getattrMsg m2) message_properties).filter
         (fun d => d.name == "frame_id")
         = [PropDelta.mk "frame_id" (.str "0x64") (.str "0x65")]) := by
  have hrest : ∀ q ∈ [(("is_extended_frame" : String), ("basic" : String)),
      ("is_fd", "basic"), ("length", "basic"), ("send_type", "basic"),
      ("cycle_time", "basic"), ("senders", "list"), ("receivers", "list")],
      q.1 ≠ "frame_id" := by decide
  have hsplit : message_properties = ("frame_id", "hex") :: [("is_extended_frame", "basic"),
      ("is_fd", "basic"), ("length", "basic"), ("send_type", "basic"),
      ("cycle_time", "basic"), ("senders", "list"), ("receivers", "list")] := rfl
  constructor
  · intro m1 m2 h1 h2
    have hg1 : getattrMsg m1 "frame_id" = PyVal.int 100 := by
      rw [show getattrMsg m1 "frame_id" = pyOfInt m1.frame_id from rfl, h1]; rfl
    have hg2 : getattrMsg m2 "frame_id" = PyVal.int 100 := by
      rw [show getattrMsg m2 "frame_id" = pyOfInt m2.frame_id from rfl, h2]; rfl
    rw [hsplit, compare_properties_cons]
    simp only [hg1, hg2, ne_eq, not_true_eq_false, if_false, List.nil_append]
    exact compare_properties_filter_nil _ _ _ _ hrest
  · intro m1 m2 h1 h2
    have hg1 : getattrMsg m1 "frame_id" = PyVal.int 100 := by
      rw [show getattrMsg m1 "frame_id" = pyOfInt m1.frame_id from rfl, h1]; rfl
    have hg2 : getattrMsg m2 "frame_id" = PyVal.int 101 := by
      rw [show getattrMsg m2 "frame_id" = pyOfInt m2.frame_id from rfl, h2]; rfl
    rw [hsplit, compare_properties_cons]
    simp only [hg1, hg2]
    rw [if_pos (by decide), List.filter_append]
    rw [show converter (PyVal.int 100) "hex" = PyVal.str "0x64" from rfl,
      show converter (PyVal.int 101) "hex" = PyVal.str "0x65" from rfl]
    rw [compare_properties_filter_nil _ _ _ _ hrest]
    simp

/-- Witness: the two halves of the hex-normalization theorem applied to
concrete messages with identifiers 100, 100 and 100, 101. -/
theorem c8_hex_normalization_witness :
    ((compare_properties (getattrMsg wMsg1) (getattrMsg wMsg1) message_properties).filter
      (fun d => d.name == "frame_id") = [])
    ∧ ((compare_properties (getattrMsg wMsg1)
        (getattrMsg { wMsg1 with frame_id := some 101 }) message_properties).filter
      (fun d => d.name == "frame_id")
      = [PropDelta.mk "frame_id" (.str "0x64") (.str "0x65")]) :=
  ⟨c8_hex_normalization.1 wMsg1 wMsg1 rfl rfl,
   c8_hex_normalization.2 wMsg1 { wMsg1 with frame_id := some 101 } rfl rfl⟩

theorem except_bind_error (e : ε) (f : β → Except ε γ) :
    (Except.error e : Except ε β) >>= f = .error e := rfl

/-- C9 (corrected): in the builder, the non-fatal actions are exactly
`deleted` and `added`; any other action name (with a non-empty
attribute schema, as both schemas are) aborts with the unknown-action
error.  Every call the program itself makes to the builder uses
`deleted` or `added` and succeeds, so no report-producing execution
(`get_report` always returns a report) reaches the fatal branch. -/
theorem c9_unknown_action_fatal :
    (∀ (action : String) (getv : String → PyVal) (properties : List (String × String))
       (signals : Option (List (String × Change))),
       action ≠ "deleted" → action ≠ "added" → properties ≠ [] →
       build_action action getv properties signals
         = .error ("unknown action: " ++ action))
  ∧ (∀ (getv : String → PyVal) (properties : List (String × String))
       (signals : Option (List (String × Change))),
       (∃ c, build_action "deleted" getv properties signals = .ok c)
       ∧ (∃ c, build_action "added" getv properties signals = .ok c))
  ∧ (∀ (old_files new_files : List (String × Dbc)) (u : Bool),
       ∃ r, get_report old_files new_files u = .ok r) := by
  refine ⟨?_, ?_, ?_⟩
  · intro action getv properties signals hdel hadd hne
    unfold build_action
    rw [build_action_props_unknown action getv properties hdel hadd hne, except_bind_error]
  · intro getv properties signals
    exact ⟨⟨_, build_action_deleted getv properties signals⟩,
           ⟨_, build_action_added getv properties signals⟩⟩
  · intro old_files new_files u
    exact ⟨_, get_report_eq old_files new_files u⟩

/-- Witness: the fatal branch, applied to the signal schema and the
action name `changed` at a concrete signal. -/
theorem c9_unknown_action_fatal_witness :
    build_action "changed" (getattrSig wSig1) signal_properties Option.none
      = .error ("unknown action: " ++ "changed") :=
  c9_unknown_action_fatal.1 "changed" (getattrSig wSig1) signal_properties Option.none
    (by decide) (by decide) (by decide)

/-- C9 counterexample to the claim as stated: the action name `deleted`
is outside the closed set {`added`, `removed`, `changed`} the claim
draws from, yet the builder accepts it and produces a record rather
than aborting. -/
theorem c9_counterexample :
    ("deleted" : String) ∉ (["added", "removed", "changed"] : List String)
    ∧ build_action "deleted" (getattrSig wSig1) signal_properties Option.none
        = .ok (removed_signal_change wSig1) :=
  ⟨by decide, build_action_deleted (getattrSig wSig1) signal_properties Option.none⟩

/-- Signal-level change records never carry a `signals` key. -/
theorem signals_none_compare_messages_run (o n : MsgEnt) (q : String × Change)
    (hq : q ∈ (compare_messages_run o n).2) : q.2.signals = Option.none := by
  simp only [compare_messages_run] at hq
  rcases List.mem_append.mp hq with hq2 | hq2
  · rcases List.mem_append.mp hq2 with hq3 | hq3
    · obtain ⟨name, _, hfn⟩ := List.mem_filterMap.mp hq3
      cases h1 : alookup o.msg_signals name with
      | none => rw [h1] at hfn; cases h1' : alookup n.msg_signals name <;>
          rw [h1'] at hfn <;> simp at hfn
      | some so =>
        cases h2 : alookup n.msg_signals name with
        | none => rw [h1, h2] at hfn; simp at hfn
        | some sn =>
          rw [h1, h2] at hfn
          by_cases hlen : (compare_properties (getattrSig so) (getattrSig sn)
              signal_properties).length > 0
          · simp only [hlen, if_true] at hfn
            injection hfn with hfn
            rw [← hfn]
            rfl
          · simp [hlen] at hfn
    · obtain ⟨name, _, hfn⟩ := List.mem_filterMap.mp hq3
      cases h1 : alookup o.msg_signals name with
      | none => rw [h1] at hfn; simp at hfn
      | some s =>
        rw [h1] at hfn
        injection hfn with hfn
        rw [← hfn]
        rfl
  · obtain ⟨name, _, hfn⟩ := List.mem_filterMap.mp hq2
    cases h1 : alookup n.msg_signals name with
    | none => rw [h1] at hfn; simp at hfn
    | some s =>
      rw [h1] at hfn
      injection hfn with hfn
      rw [← hfn]
      rfl

/-- Message-level change records always carry a `signals` key. -/
theorem signals_some_compare_dbc_run (o n : Option Dbc) (q : String × Change)
    (hq : q ∈ (compare_dbc_run o n).1) : (q.2.signals).isSome = true := by
  simp only [compare_dbc_run] at hq
  rcases List.mem_append.mp hq with hq2 | hq2
  · rcases List.mem_append.mp hq2 with hq3 | hq3
    · obtain ⟨name, _, hfn⟩ := List.mem_filterMap.mp hq3
      cases h1 : alookup (dbc_loader o).1 name with
      | none => rw [h1] at hfn; cases h1' : alookup (dbc_loader n).1 name <;>
          rw [h1'] at hfn <;> simp at hfn
      | some om =>
        cases h2 : alookup (dbc_loader n).1 name with
        | none => rw [h1, h2] at hfn; simp at hfn
        | some nm =>
          rw [h1, h2] at hfn
          by_cases hlen : (compare_messages_run om nm).1.length > 0
              ∨ (compare_messages_run om nm).2.length > 0
          · simp only [hlen, if_true] at hfn
            injection hfn with hfn
            rw [← hfn]
            rfl
          · simp [hlen] at hfn
    · obtain ⟨name, _, hfn⟩ := List.mem_filterMap.mp hq3
      cases h1 : alookup (dbc_loader o).1 name with
      | none => rw [h1] at hfn; simp at hfn
      | some m =>
        rw [h1] at hfn
        injection hfn with hfn
        rw [← hfn]
        rfl
  · obtain ⟨name, _, hfn⟩ := List.mem_filterMap.mp hq2
    cases h1 : alookup (dbc_loader n).1 name with
    | none => rw [h1] at hfn; simp at hfn
    | some m =>
      rw [h1] at hfn
      injection hfn with hfn
      rw [← hfn]
      rfl

/-- C10: every signal-level change record produced by the message
comparer (changed, deleted or added signals alike) has no `signals`
key — in the record model, exactly the two keys `action` and the
action-named payload; whereas every message-level record the Catalog
Differ emits (changed, deleted or added messages) carries a `signals`
key holding the (possibly empty) nested signal map. -/
theorem c10_signals_key_presence :
    (∀ (o n : MsgEnt) (ml : List PropDelta) (sl : List (String × Change)),
       compare_messages o n = .ok (ml, sl) →
       ∀ q ∈ sl, q.2.signals = Option.none)
  ∧ (∀ (o n : Option Dbc) (r : List (String × Change)) (v : Versions),
       compare_dbc o n = .ok (r, v) →
       ∀ q ∈ r, (q.2.signals).isSome = true) := by
  constructor
  · intro o n ml sl heq q hq
    have hrv : (ml, sl) = compare_messages_run o n := by
      have := compare_messages_eq o n
      rw [heq] at this
      injection this
    have hsl : sl = (compare_messages_run o n).2 := by rw [← hrv]
    rw [hsl] at hq
    exact signals_none_compare_messages_run o n q hq
  · intro o n r v heq q hq
    have hrv : (r, v) = compare_dbc_run o n := by
      have := compare_dbc_eq o n
      rw [heq] at this
      injection this
    have hr : r = (compare_dbc_run o n).1 := by rw [← hrv]
    rw [hr] at hq
    exact signals_some_compare_dbc_run o n q hq

/-- Witness: the signals-key invariant applied to the one record of a
concrete comparison of a catalog against an absent side (the record of
its deleted message `M1`). -/
theorem c10_signals_key_presence_witness :
    (((removed_message_change (MsgEnt.mk wMsg1 [("S1", wSig1)])).signals).isSome) = true :=
  c10_signals_key_presence.2 (some wDbc1) Option.none
    [("M1", removed_message_change (MsgEnt.mk wMsg1 [("S1", wSig1)]))]
    (Versions.mk (some "v1") Option.none false)
    (by rw [compare_dbc_eq]; rfl)
    ("M1", removed_message_change (MsgEnt.mk wMsg1 [("S1", wSig1)]))
    (by simp)

/-- Witness: the omission clause of the idempotence theorem applied to
the concrete catalog `wDbc1` compared against itself at message `M1`
(whose self-comparison is empty), plus the trivial lookup it forces. -/
theorem c2_diff_self_empty_witness :
    alookup ([] : List (String × Change)) "M1" = Option.none :=
  c2_diff_self_empty.2 wDbc1 wDbc1 "M1" [] (Versions.mk (some "v1") (some "v1") true)
    (MsgEnt.mk wMsg1 [("S1", wSig1)]) (MsgEnt.mk wMsg1 [("S1", wSig1)])
    (by rw [compare_dbc_eq]; rfl) rfl rfl (by rw [compare_messages_eq]; rfl)

/-- C7: choice-map normalization is insertion-order independent but
content sensitive.  Two signals whose choices mappings carry the same
integer-key-to-label content (any insertion order, keys numeric or
numeric-string — i.e. the integer-keyed views are permutations with
duplicate-free keys) yield no `choices` delta, whatever their other
attributes do.  Changing exactly one label (concretely: `ON` to `ONN`,
with the new map built in a different insertion order and with a
numeric-string key) yields exactly one delta whose old and new values
are both integer-keyed maps sorted by key. -/
theorem c7_choice_map_normalization :
    (∀ (s1 s2 : Signal) (c1 c2 : List (CKey × String)),
       s1.choices = some c1 → s2.choices = some c2 →
       NodupKeys (choiceInts c1) →
       (choiceInts c1).Perm (choiceInts c2) →
       (compare_properties (getattrSig s1) (getattrSig s2) signal_properties).filter
         (fun d => d.name == "choices") = [])
  ∧ (compare_properties (getattrSig wSigOff) (getattrSig wSigOnn) signal_properties
       = [PropDelta.mk "choices" (.ndict [(0, "OFF"), (1, "ON")])
            (.ndict [(0, "OFF"), (1, "ONN")])]) := by
  constructor
  · intro s1 s2 c1 c2 hc1 hc2 hnd hperm
    have hpre : ∀ q ∈ [(("minimum" : String), ("basic" : String)), ("maximum", "basic"),
        ("start", "basic"), ("length", "basic"), ("byte_order", "basic"),
        ("is_signed", "basic"), ("initial", "str"), ("invalid", "basic"),
        ("unit", "basic"), ("scale", "basic"), ("offset", "basic"), ("is_float", "basic")],
        q.1 ≠ "choices" := by decide
    have hpost : ∀ q ∈ [(("spn" : String), ("basic" : String))], q.1 ≠ "choices" := by
      decide
    have hsplit : signal_properties
        = [(("minimum" : String), ("basic" : String)), ("maximum", "basic"),
           ("start", "basic"), ("length", "basic"), ("byte_order", "basic"),
           ("is_signed", "basic"), ("initial", "str"), ("invalid", "basic"),
           ("unit", "basic"), ("scale", "basic"), ("offset", "basic"), ("is_float", "basic")]
          ++ (("choices", "dict")
            :: [(("spn" : String), ("basic" : String))]) := rfl
    have hg1 : getattrSig s1 "choices" = PyVal.dict c1 := by
      rw [show getattrSig s1 "choices" = pyOfDict s1.choices from rfl, hc1]; rfl
    have hg2 : getattrSig s2 "choices" = PyVal.dict c2 := by
      rw [show getattrSig s2 "choices" = pyOfDict s2.choices from rfl, hc2]; rfl
    rw [hsplit, compare_properties_append, List.filter_append,
      compare_properties_filter_nil _ _ _ _ hpre, compare_properties_cons,
      List.filter_append, compare_properties_filter_nil _ _ _ _ hpost]
    simp only [hg1, hg2]
    rw [show converter (PyVal.dict c1) "dict" = PyVal.ndict (pyDictNorm c1) from rfl,
      show converter (PyVal.dict c2) "dict" = PyVal.ndict (pyDictNorm c2) from rfl,
      pyDictNorm_perm c1 c2 hnd hperm]
    simp
  · rfl

/-- Witness: the order-independence half applied to the concrete
signals `wSigOff` and `wSigOn2`, whose choices carry the same content
in different insertion order with a numeric-string key. -/
theorem c7_choice_map_normalization_witness :
    (compare_properties (getattrSig wSigOff) (getattrSig wSigOn2) signal_properties).filter
      (fun d => d.name == "choices") = [] :=
  c7_choice_map_normalization.1 wSigOff wSigOn2
    [(CKey.kint 0, "OFF"), (CKey.kint 1, "ON")]
    [(CKey.kint 1, "ON"), (CKey.kstr 0, "OFF")]
    rfl rfl
    (by show (dict_keys (choiceInts [(CKey.kint 0, "OFF"), (CKey.kint 1, "ON")])).Nodup
        decide)
    (by decide)

theorem spec_inventory_old_eq (getv : String → PyVal) (props : List (String × String)) :
    spec_inventory_old getv props = inventory_old getv props :=
  (inventory_old_eq_raw getv props).symm

theorem spec_inventory_new_eq (getv : String → PyVal) (props : List (String × String)) :
    spec_inventory_new getv props = inventory_new getv props :=
  (inventory_new_eq_raw getv props).symm

theorem spec_removed_signal_eq (s : Signal) :
    spec_removed_signal s = removed_signal_change s := by
  unfold spec_removed_signal removed_signal_change
  rw [spec_inventory_old_eq]

theorem spec_added_signal_eq (s : Signal) :
    spec_added_signal s = added_signal_change s := by
  unfold spec_added_signal added_signal_change
  rw [spec_inventory_new_eq]

theorem spec_removed_message_eq (m : MsgEnt) :
    spec_removed_message m = removed_message_change m := by
  unfold spec_removed_message removed_message_change
  rw [spec_inventory_old_eq]
  simp only [spec_removed_signal_eq]

theorem spec_added_message_eq (m : MsgEnt) :
    spec_added_message m = added_message_change m := by
  unfold spec_added_message added_message_change
  rw [spec_inventory_new_eq]
  simp only [spec_added_signal_eq]

/-- The catalog comparison against an absent new side reduces to the
sorted full-inventory deleted report. -/
theorem cdbc_run_right_none (X : Dbc) :
    compare_dbc_run (some X) Option.none
      = (((dict_keys (dbc_loader (some X)).1).dedup.insertionSort strLe).filterMap
           (fun name => (alookup (dbc_loader (some X)).1 name).map
              (fun m => (name, removed_message_change m))),
         Versions.mk (some (version_of X)) Option.none false) := by
  simp only [compare_dbc_run]
  rw [show (dbc_loader (Option.none : Option Dbc)).1 = [] from rfl, cd_right_empty]
  simp only [List.filterMap_nil, List.append_nil, List.nil_append]
  rfl

/-- The catalog comparison against an absent old side reduces to the
sorted full-inventory added report. -/
theorem cdbc_run_left_none (X : Dbc) :
    compare_dbc_run Option.none (some X)
      = (((dict_keys (dbc_loader (some X)).1).dedup.insertionSort strLe).filterMap
           (fun name => (alookup (dbc_loader (some X)).1 name).map
              (fun m => (name, added_message_change m))),
         Versions.mk Option.none (some (version_of X)) false) := by
  simp only [compare_dbc_run]
  rw [show (dbc_loader (Option.none : Option Dbc)).1 = [] from rfl, cd_left_empty]
  simp only [List.filterMap_nil, List.append_nil, List.nil_append]
  rfl

/-- C3 (corrected): diffing a catalog against an absent new side
produces one report entry per message of the loaded catalog (keys are
exactly the sorted message names), each entry the record the
specification describes — tagged `deleted` (the code's literal tag; the
specification's word is `removed`), with exactly one property-delta per
schema attribute non-null on the source side (the opposite side null),
and the nested map marking every signal `deleted` in the same style;
diffing an absent old side against the catalog is the exact mirror with
`added`. -/
theorem c3_full_inventory (X : Dbc) :
    (∃ r v, compare_dbc (some X) Option.none = .ok (r, v)
       ∧ v = Versions.mk (some (version_of X)) Option.none false
       ∧ dict_keys r = (dict_keys (dbc_loader (some X)).1).dedup.insertionSort strLe
       ∧ (∀ p ∈ r, ∃ m, alookup (dbc_loader (some X)).1 p.1 = some m
            ∧ p.2 = spec_removed_message m))
  ∧ (∃ r v, compare_dbc Option.none (some X) = .ok (r, v)
       ∧ v = Versions.mk Option.none (some (version_of X)) false
       ∧ dict_keys r = (dict_keys (dbc_loader (some X)).1).dedup.insertionSort strLe
       ∧ (∀ p ∈ r, ∃ m, alookup (dbc_loader (some X)).1 p.1 = some m
            ∧ p.2 = spec_added_message m)) := by
  have hmemsort : ∀ name, name ∈ ((dict_keys (dbc_loader (some X)).1).dedup.insertionSort strLe)
      → name ∈ dict_keys (dbc_loader (some X)).1 := fun name hname => by
    have h1 := (List.perm_insertionSort strLe
      ((dict_keys (dbc_loader (some X)).1).dedup)).mem_iff.mp hname
    exact (List.mem_dedup).mp h1
  constructor
  · refine ⟨(compare_dbc_run (some X) Option.none).1,
      (compare_dbc_run (some X) Option.none).2, by rw [compare_dbc_eq], ?_, ?_, ?_⟩
    · rw [cdbc_run_right_none]
    · rw [cdbc_run_right_none]
      apply dict_keys_filterMap_keyed
      · intro n p hp
        cases ha : alookup (dbc_loader (some X)).1 n with
        | none => rw [ha] at hp; cases hp
        | some m => rw [ha] at hp; injection hp with hp; rw [← hp]
      · intro n hn
        obtain ⟨m, hm⟩ := alookup_isSome_of_mem _ _ (hmemsort n hn)
        rw [hm]
        rfl
    · rw [cdbc_run_right_none]
      intro p hp
      obtain ⟨name, _, hfn⟩ := List.mem_filterMap.mp hp
      cases ha : alookup (dbc_loader (some X)).1 name with
      | none => rw [ha] at hfn; cases hfn
      | some m =>
        rw [ha] at hfn
        injection hfn with hfn
        refine ⟨m, ?_, ?_⟩
        · rw [← hfn]; exact ha
        · rw [← hfn, spec_removed_message_eq]
  · refine ⟨(compare_dbc_run Option.none (some X)).1,
      (compare_dbc_run Option.none (some X)).2, by rw [compare_dbc_eq], ?_, ?_, ?_⟩
    · rw [cdbc_run_left_none]
    · rw [cdbc_run_left_none]
      apply dict_keys_filterMap_keyed
      · intro n p hp
        cases ha : alookup (dbc_loader (some X)).1 n with
        | none => rw [ha] at hp; cases hp
        | some m => rw [ha] at hp; injection hp with hp; rw [← hp]
      · intro n hn
        obtain ⟨m, hm⟩ := alookup_isSome_of_mem _ _ (hmemsort n hn)
        rw [hm]
        rfl
    · rw [cdbc_run_left_none]
      intro p hp
      obtain ⟨name, _, hfn⟩ := List.mem_filterMap.mp hp
      cases ha : alookup (dbc_loader (some X)).1 name with
      | none => rw [ha] at hfn; cases hfn
      | some m =>
        rw [ha] at hfn
        injection hfn with hfn
        refine ⟨m, ?_, ?_⟩
        · rw [← hfn]; exact ha
        · rw [← hfn, spec_added_message_eq]

/-- Witness: the full-inventory description applied to the concrete
catalog `wDbc1` (one message `M1` with one signal `S1`): the record the
code emits for the deleted message `M1` equals the
specification-described record. -/
theorem c3_full_inventory_witness :
    removed_message_change (MsgEnt.mk wMsg1 [("S1", wSig1)])
      = spec_removed_message (MsgEnt.mk wMsg1 [("S1", wSig1)]) := by
  obtain ⟨r, v, heq, hv, hkeys, hall⟩ := (c3_full_inventory wDbc1).1
  have h2 := compare_dbc_eq (some wDbc1) Option.none
  rw [heq] at h2
  injection h2 with h2
  have hr : r = [("M1", removed_message_change (MsgEnt.mk wMsg1 [("S1", wSig1)]))] :=
    (congrArg Prod.fst h2).trans rfl
  obtain ⟨m, hm, hp⟩ := hall ("M1", removed_message_change (MsgEnt.mk wMsg1 [("S1", wSig1)]))
    (by rw [hr]; exact List.mem_singleton.mpr rfl)
  have hmv : m = MsgEnt.mk wMsg1 [("S1", wSig1)] := by
    have hlook : alookup (dbc_loader (some wDbc1)).1 "M1"
        = some (MsgEnt.mk wMsg1 [("S1", wSig1)]) := rfl
    rw [hlook] at hm
    injection hm with hm
    exact hm.symm
  rw [hmv] at hp
  exact hp

/-- C3 counterexample to the claim as stated: the record for the
message of `wDbc1` when the new side is absent carries the literal
action tag `deleted`, not `removed`. -/
theorem c3_counterexample :
    compare_dbc (some wDbc1) Option.none
      = .ok ([("M1", removed_message_change (MsgEnt.mk wMsg1 [("S1", wSig1)]))],
             Versions.mk (some "v1") Option.none false)
    ∧ (removed_message_change (MsgEnt.mk wMsg1 [("S1", wSig1)])).action = "deleted"
    ∧ ("deleted" : String) ≠ "removed" :=
  ⟨by rw [compare_dbc_eq]; rfl, rfl, by decide⟩

/-- C4 (corrected): every change record produced at any level of a
report run — file entries, message records nested in their payloads,
and signal records nested in `signals` maps — carries an action tag
drawn from {`added`, `deleted`, `changed`, `unchanged`} (the code's
literal tag for removals is `deleted`, not the specification's
`removed`).  In the record model the same-named payload key is carried
by construction (`build_change` stores the payload under the action's
key). -/
theorem c4_action_tags (old_files new_files : List (String × Dbc)) (u : Bool)
    (r : List (String × FileEntry)) (heq : get_report old_files new_files u = .ok r) :
    ∀ q ∈ r, ChangeOk q.2.change := by
  intro q hq
  have hr : r = get_report_run old_files new_files u := by
    have := get_report_eq old_files new_files u
    rw [heq] at this
    injection this
  rw [hr] at hq
  exact changeOk_get_report_run old_files new_files u q hq

/-- Witness: the action-tag invariant applied to the single entry of a
concrete whole-file deletion report. -/
theorem c4_action_tags_witness :
    ChangeOk (removed_file_entry wDbc1).change :=
  c4_action_tags [("a.dbc", wDbc1)] [] false
    [("a.dbc", removed_file_entry wDbc1)]
    (by rw [get_report_eq]; rfl)
    ("a.dbc", removed_file_entry wDbc1) (by simp)

/-- C4 counterexample to the claim as stated: the record produced for a
file only present on the old side carries the action tag `deleted`,
which is not in the claimed set {`added`, `removed`, `changed`,
`unchanged`}. -/
theorem c4_counterexample :
    get_report [("a.dbc", wDbc1)] [] false
      = .ok [("a.dbc", removed_file_entry wDbc1)]
    ∧ (removed_file_entry wDbc1).change.action = "deleted"
    ∧ ("deleted" : String) ∉ (["added", "removed", "changed", "unchanged"] : List String) :=
  ⟨by rw [get_report_eq]; rfl, rfl, by decide⟩

/-- Lookup in the added-files segment of a report run. -/
theorem grr_alookup_added (old_files new_files : List (String × Dbc)) (f : String) :
    alookup ((compare_dictionaries old_files new_files).1.filterMap
      (fun f2 => (alookup new_files f2).map (fun d => (f2, added_file_entry d)))) f
    = if f ∈ (compare_dictionaries old_files new_files).1
      then (alookup new_files f).map added_file_entry
      else Option.none := by
  rw [alookup_filterMap_keyed _ _ ?hk f]
  case hk =>
    intro n p hp
    cases ha : alookup new_files n with
    | none => rw [ha] at hp; cases hp
    | some d => rw [ha] at hp; injection hp with hp; rw [← hp]
  by_cases hmem : f ∈ (compare_dictionaries old_files new_files).1
  · rw [if_pos hmem, if_pos hmem]
    cases h : alookup new_files f <;> simp [h]
  · rw [if_neg hmem, if_neg hmem]

/-- Lookup in the deleted-files segment of a report run. -/
theorem grr_alookup_deleted (old_files new_files : List (String × Dbc)) (f : String) :
    alookup ((compare_dictionaries old_files new_files).2.2.filterMap
      (fun f2 => (alookup old_files f2).map (fun d => (f2, removed_file_entry d)))) f
    = if f ∈ (compare_dictionaries old_files new_files).2.2
      then (alookup old_files f).map removed_file_entry
      else Option.none := by
  rw [alookup_filterMap_keyed _ _ ?hk f]
  case hk =>
    intro n p hp
    cases ha : alookup old_files n with
    | none => rw [ha] at hp; cases hp
    | some d => rw [ha] at hp; injection hp with hp; rw [← hp]
  by_cases hmem : f ∈ (compare_dictionaries old_files new_files).2.2
  · rw [if_pos hmem, if_pos hmem]
    cases h : alookup old_files f <;> simp [h]
  · rw [if_neg hmem, if_neg hmem]

/-- Lookup in the common-files segment of a report run. -/
theorem grr_alookup_same (old_files new_files : List (String × Dbc)) (u : Bool) (f : String) :
    alookup ((compare_dictionaries old_files new_files).2.1.filterMap
      (fun f2 =>
        match alookup old_files f2, alookup new_files f2 with
        | some dold, some dnew => (common_file_entry u dold dnew).map (fun e => (f2, e))
        | _, _ => Option.none)) f
    = if f ∈ (compare_dictionaries old_files new_files).2.1
      then (match alookup old_files f, alookup new_files f with
            | some dold, some dnew => common_file_entry u dold dnew
            | _, _ => Option.none)
      else Option.none := by
  rw [alookup_filterMap_keyed _ _ ?hk f]
  case hk =>
    intro n p hp
    cases ha : alookup old_files n with
    | none => rw [ha] at hp; cases hp
    | some dold =>
      cases hb : alookup new_files n with
      | none => rw [ha, hb] at hp; cases hp
      | some dnew =>
        simp only [ha, hb] at hp
        cases hc : common_file_entry u dold dnew with
        | none => rw [hc] at hp; cases hp
        | some e =>
          rw [hc] at hp
          injection hp with hp
          rw [← hp]
  by_cases hmem : f ∈ (compare_dictionaries old_files new_files).2.1
  · rw [if_pos hmem, if_pos hmem]
    cases h1 : alookup old_files f with
    | none => simp
    | some dold =>
      cases h2 : alookup new_files f with
      | none => simp
      | some dnew => cases hc : common_file_entry u dold dnew <;> simp [hc]
  · rw [if_neg hmem, if_neg hmem]

/-- C6 (corrected): per-file behaviour of the File-Set Differ.  A file
only in the new collection is diffed with the old side absent and
wrapped `added`; a file only in the old collection is diffed with the
new side absent and wrapped `deleted` (the code's literal tag; the
specification's word is `removed`); a file present in both collections
appears wrapped `changed` exactly when its catalog diff is non-empty or
the versions differ, appears wrapped `unchanged` when the diff is empty
and versions match and the caller opted in, and is omitted entirely
otherwise. -/
theorem c6_file_report (old_files new_files : List (String × Dbc)) (u : Bool) :
    ∃ r, get_report old_files new_files u = .ok r
    ∧ (∀ f d, alookup old_files f = Option.none → alookup new_files f = some d →
         alookup r f = some (added_file_entry d))
    ∧ (∀ f d, alookup old_files f = some d → alookup new_files f = Option.none →
         alookup r f = some (removed_file_entry d))
    ∧ (∀ f dold dnew rep v,
         alookup old_files f = some dold → alookup new_files f = some dnew →
         compare_dbc (some dold) (some dnew) = .ok (rep, v) →
         alookup r f
           = (if rep.length > 0 ∨ v.same_version = false then
                some (FileEntry.mk (build_change "changed" (.nested rep)) v)
              else if u then
                some (FileEntry.mk (build_change "unchanged" (.nested rep)) v)
              else
                Option.none)) := by
  refine ⟨get_report_run old_files new_files u, get_report_eq old_files new_files u,
    ?_, ?_, ?_⟩
  · intro f d h1 h2
    have ho : f ∉ dict_keys old_files := (alookup_eq_none_iff _ _).mp h1
    have hn : f ∈ dict_keys new_files := alookup_mem_keys_of_some _ _ _ h2
    have hAf : alookup ((compare_dictionaries old_files new_files).1.filterMap
        (fun f2 => (alookup new_files f2).map (fun d2 => (f2, added_file_entry d2)))) f
        = some (added_file_entry d) := by
      rw [grr_alookup_added, if_pos ((mem_cd_added _ _ f).mpr ⟨hn, ho⟩), h2]
      rfl
    simp only [get_report_run]
    rw [alookup_append, alookup_append, hAf]
  · intro f d h1 h2
    have ho : f ∈ dict_keys old_files := alookup_mem_keys_of_some _ _ _ h1
    have hn : f ∉ dict_keys new_files := (alookup_eq_none_iff _ _).mp h2
    have hAf : alookup ((compare_dictionaries old_files new_files).1.filterMap
        (fun f2 => (alookup new_files f2).map (fun d2 => (f2, added_file_entry d2)))) f
        = Option.none := by
      rw [grr_alookup_added, if_neg]
      intro hmem
      exact ((mem_cd_added _ _ f).mp hmem).2 ho
    have hDf : alookup ((compare_dictionaries old_files new_files).2.2.filterMap
        (fun f2 => (alookup old_files f2).map (fun d2 => (f2, removed_file_entry d2)))) f
        = some (removed_file_entry d) := by
      rw [grr_alookup_deleted, if_pos ((mem_cd_deleted _ _ f).mpr ⟨ho, hn⟩), h1]
      rfl
    simp only [get_report_run]
    rw [alookup_append, alookup_append, hAf, hDf]
  · intro f dold dnew rep v h1 h2 hcd
    have ho : f ∈ dict_keys old_files := alookup_mem_keys_of_some _ _ _ h1
    have hn : f ∈ dict_keys new_files := alookup_mem_keys_of_some _ _ _ h2
    have hrv : (rep, v) = compare_dbc_run (some dold) (some dnew) := by
      have := compare_dbc_eq (some dold) (some dnew)
      rw [hcd] at this
      injection this
    have hrep : rep = (compare_dbc_run (some dold) (some dnew)).1 := by rw [← hrv]
    have hv : v = (compare_dbc_run (some dold) (some dnew)).2 := by rw [← hrv]
    have hAf : alookup ((compare_dictionaries old_files new_files).1.filterMap
        (fun f2 => (alookup new_files f2).map (fun d2 => (f2, added_file_entry d2)))) f
        = Option.none := by
      rw [grr_alookup_added, if_neg]
      intro hmem
      exact ((mem_cd_added _ _ f).mp hmem).2 ho
    have hDf : alookup ((compare_dictionaries old_files new_files).2.2.filterMap
        (fun f2 => (alookup old_files f2).map (fun d2 => (f2, removed_file_entry d2)))) f
        = Option.none := by
      rw [grr_alookup_deleted, if_neg]
      intro hmem
      exact ((mem_cd_deleted _ _ f).mp hmem).2 hn
    have hSf : alookup ((compare_dictionaries old_files new_files).2.1.filterMap
        (fun f2 =>
          match alookup old_files f2, alookup new_files f2 with
          | some d3, some d4 => (common_file_entry u d3 d4).map (fun e => (f2, e))
          | _, _ => Option.none)) f
        = common_file_entry u dold dnew := by
      rw [grr_alookup_same, if_pos ((mem_cd_same _ _ f).mpr ⟨ho, hn⟩), h1, h2]
    simp only [get_report_run]
    rw [alookup_append, alookup_append, hAf, hDf, hSf]
    simp only [common_file_entry, ← hrep, ← hv]

/-- Witness: the common-file clause applied to two equal collections
with the include-unchanged flag off — the zero-diff file is omitted
entirely (the report is empty, so the lookup misses). -/
theorem c6_file_report_witness :
    alookup ([] : List (String × FileEntry)) "a.dbc" = Option.none := by
  obtain ⟨r, heq, hadd, hdel, hcom⟩ :=
    c6_file_report [("a.dbc", wDbc1)] [("a.dbc", wDbc1)] false
  have hr : r = [] := by
    have h2 := get_report_eq [("a.dbc", wDbc1)] [("a.dbc", wDbc1)] false
    rw [heq] at h2
    injection h2
  have hc := hcom "a.dbc" wDbc1 wDbc1 [] (Versions.mk (some "v1") (some "v1") true)
    rfl rfl (by rw [compare_dbc_eq]; rfl)
  rw [hr] at hc
  simpa using hc

/-- C6 counterexample to the claim as stated: the entry for a file only
present in the old collection is wrapped with the literal action tag
`deleted`, not `removed`. -/
theorem c6_counterexample :
    get_report [("b.dbc", wDbc1)] [] false = .ok [("b.dbc", removed_file_entry wDbc1)]
    ∧ (removed_file_entry wDbc1).change.action = "deleted"
    ∧ ("removed" : String) ≠ "deleted" :=
  ⟨by rw [get_report_eq]; rfl, rfl, by decide⟩
